import Mathlib

/-!
# ICMP / NDP header codec of `fboss/agent/packet/ICMPHdr.cpp`

A shallow embedding of the ICMP header codec, its checksum computation, the frame
construction helpers, the NDP option decoders and the NDP option walker, followed by
the properties established about them.

Conventions of the embedding:
* an octet is a `Fin 256`, a `uint16_t` a `Fin 65536`, a `uint32_t` a `Fin 4294967296`;
* a read cursor (`folly::io::Cursor`) is the list of octets still to be read;
* a C++ function that may throw returns an `Except Exn _`, and a function that
  advances its cursor returns the advanced cursor next to its value;
* arithmetic on `uint32_t` accumulators is written on `Nat` with an explicit `% 2 ^ 32`;
* a write cursor (`folly::io::RWPrivateCursor`) is the octets written so far together
  with the room that is left, and a helper that may hit a failed `DCHECK` ends in an
  `Outcome`: returned, thrown or aborted.
-/

namespace fboss

/-! ## Definitions -/

/-- One octet of packet data (`uint8_t`). -/
abbrev Byte := Fin 256

/-- A `uint16_t` value. -/
abbrev Word16 := Fin 65536

/-- A `uint32_t` value. -/
abbrev Word32 := Fin 4294967296

/-- The exceptions that travel through the codec: `std::out_of_range`, thrown by the
folly cursors on underflow or overflow, `HdrParseError` with its `what()` message, and
the failure of the checksum fold on a body that is too short (named `TruncatedBody`
by the specification). -/
inductive Exn
  | outOfRange
  | hdrParseError (what : String)
  | truncatedBody
deriving DecidableEq, Repr

deriving instance DecidableEq for Except

/-- Byte order of the host, which is what `Cursor::read<T>` uses for a multi-byte `T`
(`readBE<T>` is big-endian on every host). -/
inductive ByteOrder
  | littleEndian
  | bigEndian
deriving DecidableEq, Repr

/-- The read cursor `folly::io::Cursor`: the octets that remain to be read.
`cursor.length()` is the length of this list. -/
abbrev Cursor := List Byte

/-- The call `cursor.read<uint8_t>()`: one octet, or `std::out_of_range` when none remains. -/
def Cursor.read8 : Cursor → Except Exn (Byte × Cursor)
  | [] => .error .outOfRange
  | b :: rest => .ok (b, rest)

/-- The call `cursor.readBE<uint16_t>()`: two octets, most significant first. -/
def Cursor.readBE16 : Cursor → Except Exn (Word16 × Cursor)
  | b0 :: b1 :: rest => .ok (⟨b0.val * 256 + b1.val, by omega⟩, rest)
  | _ => .error .outOfRange

/-- The call `cursor.read<uint16_t>()`: two octets in the byte order of the host. -/
def Cursor.read16 (host : ByteOrder) : Cursor → Except Exn (Word16 × Cursor)
  | b0 :: b1 :: rest =>
    match host with
    | .bigEndian => .ok (⟨b0.val * 256 + b1.val, by omega⟩, rest)
    | .littleEndian => .ok (⟨b1.val * 256 + b0.val, by omega⟩, rest)
  | _ => .error .outOfRange

/-- The call `cursor.read<uint32_t>()`: four octets in the byte order of the host. -/
def Cursor.read32 (host : ByteOrder) : Cursor → Except Exn (Word32 × Cursor)
  | b0 :: b1 :: b2 :: b3 :: rest =>
    match host with
    | .bigEndian =>
      .ok (⟨b0.val * 16777216 + b1.val * 65536 + b2.val * 256 + b3.val, by omega⟩, rest)
    | .littleEndian =>
      .ok (⟨b3.val * 16777216 + b2.val * 65536 + b1.val * 256 + b0.val, by omega⟩, rest)
  | _ => .error .outOfRange

/-- The write cursor `folly::io::RWPrivateCursor` over a buffer of fixed size:
`written` holds the octets of the buffer before the position, `room` the octets from
the position to the end of the buffer, which the next writes replace. -/
structure RWPrivateCursor where
  written : List Byte
  room : List Byte
deriving DecidableEq, Repr

/-- The call `cursor->write<uint8_t>(v)`: replaces the octet at the position and moves
on, or throws `std::out_of_range` when the buffer has no room left. -/
def RWPrivateCursor.write8 (v : Byte) (c : RWPrivateCursor) : Except Exn RWPrivateCursor :=
  match c.room with
  | [] => .error .outOfRange
  | _ :: room => .ok ⟨c.written ++ [v], room⟩

/-- The call `cursor->writeBE<uint16_t>(v)`: the two octets of `v`, most significant first. -/
def RWPrivateCursor.writeBE16 (v : Word16) (c : RWPrivateCursor) : Except Exn RWPrivateCursor :=
  match c.room with
  | _ :: _ :: room =>
    .ok ⟨c.written ++ [⟨v.val / 256, by omega⟩, ⟨v.val % 256, by omega⟩], room⟩
  | _ => .error .outOfRange

/-- The fields of `ICMPHdr`: `uint8_t type`, `uint8_t code`, `uint16_t csum`. -/
structure ICMPHdr where
  type : Byte
  code : Byte
  csum : Word16
deriving DecidableEq, Repr

/-- The constant `ICMPHdr::SIZE`. -/
def ICMPHdr.SIZE : Nat := 4

/-- The constructor `ICMPHdr::ICMPHdr(Cursor&)`: reads type, code and the big-endian
checksum; a `std::out_of_range` of any of the three reads is caught and replaced by
`HdrParseError("ICMPv6 header too small")`. -/
def ICMPHdr.ctor (cursor : Cursor) : Except Exn (ICMPHdr × Cursor) :=
  let body : Except Exn (ICMPHdr × Cursor) := do
    let (type, c1) ← Cursor.read8 cursor
    let (code, c2) ← Cursor.read8 c1
    let (csum, c3) ← Cursor.readBE16 c2
    pure (⟨type, code, csum⟩, c3)
  match body with
  | .error .outOfRange => .error (.hdrParseError "ICMPv6 header too small")
  | r => r

/-- The method `ICMPHdr::serialize`: writes type, code and the big-endian checksum. -/
def ICMPHdr.serialize (h : ICMPHdr) (cursor : RWPrivateCursor) : Except Exn RWPrivateCursor := do
  let c1 ← RWPrivateCursor.write8 h.type cursor
  let c2 ← RWPrivateCursor.write8 h.code c1
  RWPrivateCursor.writeBE16 h.csum c2

/-- Modelled from the spec: the accumulation loop of `PktUtil::finalizeChecksum`, whose
source file is not part of the sources. It reads exactly `length` octets from the
cursor, adding them as 16-bit big-endian words into a 32-bit sum that starts at `sum`;
a trailing odd octet counts as if followed by a 0x00 octet; it fails with
`TruncatedBody` when fewer than `length` octets remain. -/
def PktUtil.sumWords : Cursor → Nat → Nat → Except Exn Nat
  | _, 0, sum => .ok sum
  | [], _ + 1, _ => .error .truncatedBody
  | b :: _, 1, sum => .ok ((sum + b.val * 256) % 2 ^ 32)
  | [_], _ + 2, _ => .error .truncatedBody
  | b0 :: b1 :: rest, length + 2, sum =>
    PktUtil.sumWords rest length ((sum + (b0.val * 256 + b1.val)) % 2 ^ 32)

/-- Modelled from the spec: the carry fold of `PktUtil::finalizeChecksum`, "repeatedly
add the high 16 bits into the low 16 bits until the sum fits in 16 bits". -/
def PktUtil.foldCarries (sum : Nat) : Nat :=
  if sum < 65536 then sum else PktUtil.foldCarries (sum % 65536 + sum / 65536)
termination_by sum
decreasing_by omega

/-- Modelled from the spec: `PktUtil::finalizeChecksum(cursor, length, sum)`, the
Checksum Engine `fold(initialSum, bytes, length)`: accumulate `length` octets of the
cursor into the 32-bit sum, fold the carries, and return the one's complement (the
bitwise NOT on 16 bits, `0xFFFF - x`) of the folded sum. The cursor is passed by value,
so the cursor of the caller does not move. -/
def PktUtil.finalizeChecksum (cursor : Cursor) (length : Nat) (sum : Nat) : Except Exn Nat :=
  match PktUtil.sumWords cursor length sum with
  | .ok total => .ok (65535 - PktUtil.foldCarries total)
  | .error e => .error e

/-- Modelled from the spec: the members of `IPv6Hdr` that the codec touches (its
declaration is not part of the sources): the `uint16_t payloadLength`, the
`uint8_t nextHeader`, and the `uint32_t` that `pseudoHdrPartialCsum()` returns, the
opaque pseudo-header contribution supplied by the IPv6 header. -/
structure IPv6Hdr where
  payloadLength : Word16
  nextHeader : Byte
  pseudoHdrPartialCsum : Word32
deriving DecidableEq, Repr

/-- The method `ICMPHdr::computeChecksum(const IPv6Hdr&, const Cursor&)`: the sum starts
at the pseudo-header contribution, `(type << 8) + code` is added on `uint32_t`, and
`payloadLength - ICMPHdr::SIZE` octets of the body are folded in (the difference is
converted to the unsigned length parameter of the engine). The stored `csum` is not read. -/
def ICMPHdr.computeChecksumV6 (h : ICMPHdr) (ipv6Hdr : IPv6Hdr) (cursor : Cursor) :
    Except Exn Nat :=
  let sum : Nat := ipv6Hdr.pseudoHdrPartialCsum.val
  let sum : Nat := (sum + (h.type.val <<< 8 + h.code.val)) % 2 ^ 32
  let length : Nat := (ipv6Hdr.payloadLength.val + 2 ^ 32 - ICMPHdr.SIZE) % 2 ^ 32
  PktUtil.finalizeChecksum cursor length sum

/-- The method `ICMPHdr::computeChecksum(const Cursor&, uint32_t payloadLength)`: the sum
starts at 0, `(type << 8) + code` is added, and `payloadLength` octets of the body are
folded in. The stored `csum` is not read. -/
def ICMPHdr.computeChecksumV4 (h : ICMPHdr) (cursor : Cursor) (payloadLength : Word32) :
    Except Exn Nat :=
  let sum : Nat := 0
  let sum : Nat := (sum + (h.type.val <<< 8 + h.code.val)) % 2 ^ 32
  PktUtil.finalizeChecksum cursor payloadLength.val sum

/-- The 16-bit big-endian words of an octet sequence, a trailing odd octet being padded
with 0x00: the words the specification says the Checksum Engine adds up. -/
def be16Words : List Byte → List Nat
  | [] => []
  | [b] => [b.val * 256]
  | b0 :: b1 :: rest => (b0.val * 256 + b1.val) :: be16Words rest

/-- The checksum as the specification words it: the bitwise complement of the
carry-folded 32-bit sum of a seed and the 16-bit big-endian words of the octets. -/
def complementOfFoldedSum (seed : Nat) (bytes : List Byte) : Nat :=
  65535 - PktUtil.foldCarries ((seed + (be16Words bytes).sum) % 2 ^ 32)

/-- The verifier of the one's-complement self-check, as the specification words it: it
folds the pseudo-header contribution, the header words `type << 8 | code` and the
checksum field, and the whole body, with the 32-bit accumulation and the carry fold
of the Checksum Engine, and yields the folded 16-bit sum (before any complement). -/
def verifierFoldedSum (seed : Word32) (h : ICMPHdr) (body : Cursor) : Except Exn Nat :=
  match PktUtil.sumWords body body.length
      ((seed.val + (h.type.val <<< 8 ||| h.code.val) + h.csum.val) % 2 ^ 32) with
  | .ok total => .ok (PktUtil.foldCarries total)
  | .error e => .error e

/-- The members of `NDPOptionHdr`: the option type, kept as the octet that the
`static_cast<ICMPv6NDPOptionType>` converts, and the length octet. -/
structure NDPOptionHdr where
  type_ : Byte
  length_ : Byte
deriving DecidableEq, Repr

/-- The constructor `NDPOptionHdr::NDPOptionHdr(Cursor&)`: reads the type octet and the
length octet; a `std::out_of_range` of either read is caught and replaced by
`HdrParseError("NDP Option is not present")`. -/
def NDPOptionHdr.ctor (cursor : Cursor) : Except Exn (NDPOptionHdr × Cursor) :=
  let body : Except Exn (NDPOptionHdr × Cursor) := do
    let (type_, c1) ← Cursor.read8 cursor
    let (length_, c2) ← Cursor.read8 c1
    pure (⟨type_, length_⟩, c2)
  match body with
  | .error .outOfRange => .error (.hdrParseError "NDP Option is not present")
  | r => r

/-- The function `NDPOptions::getMtu`: reads the reserved field with `read<uint16_t>`,
throws `HdrParseError("NDP MTU Option has non zero reserved field")` when it is not 0
(an exception the `catch (std::out_of_range)` does not catch), then returns
`read<uint32_t>`, the next four octets in the byte order of the host; a
`std::out_of_range` of either read becomes `HdrParseError("NDP MTU option is too small")`. -/
def NDPOptions.getMtu (host : ByteOrder) (cursor : Cursor) : Except Exn (Word32 × Cursor) :=
  let body : Except Exn (Word32 × Cursor) := do
    let (reserved, c1) ← Cursor.read16 host cursor
    if reserved ≠ 0 then
      throw (Exn.hdrParseError "NDP MTU Option has non zero reserved field")
    Cursor.read32 host c1
  match body with
  | .error .outOfRange => .error (.hdrParseError "NDP MTU option is too small")
  | r => r

/-- Modelled from the spec: `folly::MacAddress`, a hardware address of six octets. -/
structure MacAddress where
  b0 : Byte
  b1 : Byte
  b2 : Byte
  b3 : Byte
  b4 : Byte
  b5 : Byte
deriving DecidableEq, Repr

/-- The octets `mac.bytes()` of a hardware address, in wire order. -/
def MacAddress.bytes (mac : MacAddress) : List Byte :=
  [mac.b0, mac.b1, mac.b2, mac.b3, mac.b4, mac.b5]

/-- Modelled from the spec: `PktUtil::readMac(&cursor)`, whose source file is not part of
the sources: it reads a fixed six-octet hardware address, and the cursor throws
`std::out_of_range` when fewer than six octets remain. -/
def PktUtil.readMac : Cursor → Except Exn (MacAddress × Cursor)
  | a0 :: a1 :: a2 :: a3 :: a4 :: a5 :: rest => .ok (⟨a0, a1, a2, a3, a4, a5⟩, rest)
  | _ => .error .outOfRange

/-- Modelled from the spec: the enumerator `ICMPV6_NDP_OPTION_SOURCE_LINK_LAYER_ADDRESS`
of `ICMPv6NDPOptionType` (declared in a header that is not part of the sources), with
its option type code. -/
def ICMPV6_NDP_OPTION_SOURCE_LINK_LAYER_ADDRESS : Byte := 1

/-- Modelled from the spec: the enumerator `ICMPV6_NDP_OPTION_TARGET_LINK_LAYER_ADDRESS`. -/
def ICMPV6_NDP_OPTION_TARGET_LINK_LAYER_ADDRESS : Byte := 2

/-- Modelled from the spec: the enumerator `ICMPV6_NDP_OPTION_PREFIX_INFORMATION`. -/
def ICMPV6_NDP_OPTION_PREFIX_INFORMATION : Byte := 3

/-- Modelled from the spec: the enumerator `ICMPV6_NDP_OPTION_REDIRECTED_HEADER`. -/
def ICMPV6_NDP_OPTION_REDIRECTED_HEADER : Byte := 4

/-- Modelled from the spec: the enumerator `ICMPV6_NDP_OPTION_MTU`. -/
def ICMPV6_NDP_OPTION_MTU : Byte := 5

/-- The members of `NDPOptions` that `getAll` fills: the optional MTU and the optional
source link-layer address, both empty in a fresh value. -/
structure NDPOptions where
  mtu : Option Word32
  sourceLinkLayerAddress : Option MacAddress
deriving DecidableEq, Repr

/-- The function `NDPOptions::getSourceLinkLayerAddress`: `PktUtil::readMac`, a
`std::out_of_range` of which becomes
`HdrParseError("NDP Source Link Layer option is too small")`. -/
def NDPOptions.getSourceLinkLayerAddress (cursor : Cursor) : Except Exn (MacAddress × Cursor) :=
  match PktUtil.readMac cursor with
  | .error .outOfRange => .error (.hdrParseError "NDP Source Link Layer option is too small")
  | r => r

/-- One pass through the body of the `while` loop of `NDPOptions::getAll`: construct the
option header, then switch on its type. The MTU and the source link-layer cases decode
the value and then store it; the three recognized but ignored types and the default
case only log and break, leaving the cursor right behind the two header octets. An
exception leaves the loop before anything is stored. -/
def NDPOptions.getAllBody (host : ByteOrder) (cursor : Cursor) (options : NDPOptions) :
    Except Exn (NDPOptions × Cursor) := do
  let (hdr, c1) ← NDPOptionHdr.ctor cursor
  if hdr.type_ = ICMPV6_NDP_OPTION_MTU then
    let (mtu, c2) ← NDPOptions.getMtu host c1
    pure ({ options with mtu := some mtu }, c2)
  else if hdr.type_ = ICMPV6_NDP_OPTION_SOURCE_LINK_LAYER_ADDRESS then
    let (mac, c2) ← NDPOptions.getSourceLinkLayerAddress c1
    pure ({ options with sourceLinkLayerAddress := some mac }, c2)
  else if hdr.type_ = ICMPV6_NDP_OPTION_REDIRECTED_HEADER
      ∨ hdr.type_ = ICMPV6_NDP_OPTION_PREFIX_INFORMATION
      ∨ hdr.type_ = ICMPV6_NDP_OPTION_TARGET_LINK_LAYER_ADDRESS then
    pure (options, c1)
  else
    pure (options, c1)

/-- The `while (cursor.length())` loop of `NDPOptions::getAll` with its mutable
`options`: it ends normally on an empty cursor, and it is left by the first exception
of the body, which is returned next to the options stored until then. -/
def NDPOptions.getAllLoop (host : ByteOrder) (cursor : Cursor) (options : NDPOptions) :
    NDPOptions × Option Exn :=
  if cursor.length = 0 then (options, none)
  else
    match h : NDPOptions.getAllBody host cursor options with
    | .error e => (options, some e)
    | .ok (options1, cursor1) => NDPOptions.getAllLoop host cursor1 options1
termination_by cursor.length
decreasing_by
  simp_wf
  rcases cursor with _ | ⟨t, _ | ⟨l, rest⟩⟩
  · simp [NDPOptions.getAllBody, NDPOptionHdr.ctor, Cursor.read8, bind, Except.bind] at h
  · simp [NDPOptions.getAllBody, NDPOptionHdr.ctor, Cursor.read8, bind, Except.bind] at h
  · simp only [NDPOptions.getAllBody, NDPOptionHdr.ctor, Cursor.read8, bind, Except.bind, pure,
      Except.pure] at h
    have hmtu : ∀ v, NDPOptions.getMtu host rest = .ok v → v.2.length ≤ rest.length := by
      intro v hv
      rcases rest with _ | ⟨r0, _ | ⟨r1, _ | ⟨r2, _ | ⟨r3, _ | ⟨r4, _ | ⟨r5, tail⟩⟩⟩⟩⟩⟩ <;>
        cases host <;>
        simp only [NDPOptions.getMtu, Cursor.read16, Cursor.read32, bind, Except.bind, pure,
          Except.pure, throw, throwThe, MonadExceptOf.throw] at hv <;>
        (try split at hv) <;> (try split at hv) <;> simp at hv
      all_goals subst hv
      all_goals simp only [List.length_cons]
      all_goals omega
    have hmac : ∀ v, NDPOptions.getSourceLinkLayerAddress rest = .ok v →
        v.2.length ≤ rest.length := by
      intro v hv
      rcases rest with _ | ⟨r0, _ | ⟨r1, _ | ⟨r2, _ | ⟨r3, _ | ⟨r4, _ | ⟨r5, tail⟩⟩⟩⟩⟩⟩ <;>
        simp [NDPOptions.getSourceLinkLayerAddress, PktUtil.readMac] at hv
      subst hv
      simp only [List.length_cons]
      omega
    simp only [List.length_cons]
    split at h
    · split at h
      · simp at h
      · rename_i v hv
        have := hmtu v hv
        simp only [Except.ok.injEq, Prod.mk.injEq] at h
        rw [← h.2]
        omega
    · split at h
      · split at h
        · simp at h
        · rename_i v hv
          have := hmac v hv
          simp only [Except.ok.injEq, Prod.mk.injEq] at h
          rw [← h.2]
          omega
      · split at h <;>
          · simp only [Except.ok.injEq, Prod.mk.injEq] at h
            rw [← h.2]
            omega

/-- The function `NDPOptions::getAll`: the loop runs inside `try`, a `HdrParseError` is
caught and logged, any other exception propagates, and the options are returned. -/
def NDPOptions.getAll (host : ByteOrder) (cursor : Cursor) : Except Exn NDPOptions :=
  match NDPOptions.getAllLoop host cursor ⟨none, none⟩ with
  | (options, none) => .ok options
  | (options, some (.hdrParseError _)) => .ok options
  | (_, some e) => .error e

/-- The value that `read<uint32_t>` gives for the four octets m0 m1 m2 m3 on the given
host: most significant octet first on a big-endian host, last on a little-endian one. -/
def hostOrder32 (host : ByteOrder) (m0 m1 m2 m3 : Byte) : Word32 :=
  match host with
  | .bigEndian => ⟨m0.val * 16777216 + m1.val * 65536 + m2.val * 256 + m3.val, by omega⟩
  | .littleEndian => ⟨m3.val * 16777216 + m2.val * 65536 + m1.val * 256 + m0.val, by omega⟩

/-- Every value held in `options` is traced to the octets of `input`: an MTU to eight
contiguous octets that start with the MTU type code, carry a zero reserved field and
end with four octets that getMtu decodes to it; a source link-layer address to the
type code 1, one length octet and the six octets of the address. -/
def NDPOptions.TracedTo (host : ByteOrder) (input : List Byte) (options : NDPOptions) : Prop :=
  (∀ m, options.mtu = some m →
    ∃ pre l m0 m1 m2 m3 post,
      input = pre ++ ICMPV6_NDP_OPTION_MTU :: l :: 0 :: 0 :: m0 :: m1 :: m2 :: m3 :: post ∧
      NDPOptions.getMtu host [0, 0, m0, m1, m2, m3] = .ok (m, [])) ∧
  (∀ a, options.sourceLinkLayerAddress = some a →
    ∃ pre l post,
      input = pre ++ ICMPV6_NDP_OPTION_SOURCE_LINK_LAYER_ADDRESS :: l :: (a.bytes ++ post))

/-- A well-formed option of the chains of the specification: an MTU option with its four
MTU octets, or a source link-layer address option with its address. -/
inductive WellFormedOption
  | mtu (m0 m1 m2 m3 : Byte)
  | sourceLinkLayer (mac : MacAddress)
deriving DecidableEq, Repr

/-- The eight octets of a well-formed option on the wire: type 5, length 1, a zero
reserved field and the four MTU octets; or type 1, length 1 and the six address octets. -/
def WellFormedOption.encode : WellFormedOption → List Byte
  | .mtu m0 m1 m2 m3 => [5, 1, 0, 0, m0, m1, m2, m3]
  | .sourceLinkLayer mac => 1 :: 1 :: mac.bytes

/-- The octets of a chain of well-formed options, one option after the other. -/
def encodeChain : List WellFormedOption → List Byte
  | [] => []
  | option :: chain => option.encode ++ encodeChain chain

/-- What the walker has stored as MTU after a chain of well-formed options: the four
MTU octets of the last MTU option as `read<uint32_t>` reads them on the given host;
none when the chain has no MTU option. -/
def lastDecodedMtu (host : ByteOrder) : List WellFormedOption → Option Word32
  | [] => none
  | .mtu m0 m1 m2 m3 :: chain =>
    match lastDecodedMtu host chain with
    | some v => some v
    | none => some (hostOrder32 host m0 m1 m2 m3)
  | .sourceLinkLayer _ :: chain => lastDecodedMtu host chain

/-- The MTU value that the last MTU option of a chain carries: its four MTU octets as a
big-endian number, which is how the wire layout of the specification lays the MTU out;
none when the chain has no MTU option. -/
def lastMtu : List WellFormedOption → Option Word32
  | [] => none
  | .mtu m0 m1 m2 m3 :: chain =>
    match lastMtu chain with
    | some v => some v
    | none => some ⟨m0.val * 16777216 + m1.val * 65536 + m2.val * 256 + m3.val, by omega⟩
  | .sourceLinkLayer _ :: chain => lastMtu chain

/-- The address of the last source link-layer address option of a chain, if any. -/
def lastSourceLinkLayerAddress : List WellFormedOption → Option MacAddress
  | [] => none
  | .sourceLinkLayer mac :: chain =>
    match lastSourceLinkLayerAddress chain with
    | some a => some a
    | none => some mac
  | .mtu _ _ _ _ :: chain => lastSourceLinkLayerAddress chain

/-- A trailing fragment on which the walker fails at once: the option header cannot be
constructed, or the header announces an MTU option and getMtu throws, or it announces a
source link-layer address option and getSourceLinkLayerAddress throws. -/
def FailsOnFirstOption (host : ByteOrder) (fragment : Cursor) : Prop :=
  (∃ e, NDPOptionHdr.ctor fragment = .error e) ∨
  (∃ l c1 e, NDPOptionHdr.ctor fragment = .ok (⟨ICMPV6_NDP_OPTION_MTU, l⟩, c1) ∧
    NDPOptions.getMtu host c1 = .error e) ∨
  (∃ l c1 e,
    NDPOptionHdr.ctor fragment = .ok (⟨ICMPV6_NDP_OPTION_SOURCE_LINK_LAYER_ADDRESS, l⟩, c1) ∧
    NDPOptions.getSourceLinkLayerAddress c1 = .error e)

/-- Modelled from the spec: the MTU option that carries the MTU value `a` on the wire,
its four MTU octets in big-endian order as the wire layout of the specification has it. -/
def mtuOption (a : Word32) : WellFormedOption :=
  .mtu ⟨a.val / 16777216, by omega⟩ ⟨a.val / 65536 % 256, by omega⟩
    ⟨a.val / 256 % 256, by omega⟩ ⟨a.val % 256, by omega⟩

/-- Modelled from the spec: `IPv4Hdr::minSize()`, the minimum IPv4 header of 20 octets
(`IPv4Hdr` is declared in a header that is not part of the sources). -/
def IPv4Hdr.minSize : Nat := 20

/-- Modelled from the spec: `IPv6Hdr::SIZE`, the fixed IPv6 header of 40 octets. -/
def IPv6Hdr.SIZE : Nat := 40

/-- Modelled from the spec: `EthHdr::SIZE`, declared in a header that is not part of the
sources; the specification gives it as 14, the Ethernet header without a VLAN tag. -/
def EthHdr.SIZE : Nat := 14

/-- The function `ICMPHdr::computeTotalLengthV4`: the sum of the payload length,
`IPv4Hdr::minSize()`, `ICMPHdr::SIZE` and `EthHdr::SIZE` on `uint32_t`. The value of
`EthHdr::SIZE`, which the sources do not show, is the parameter `ethHdrSize`. -/
def ICMPHdr.computeTotalLengthV4 (ethHdrSize : Nat) (payloadLength : Word32) : Nat :=
  (payloadLength.val + IPv4Hdr.minSize + ICMPHdr.SIZE + ethHdrSize) % 2 ^ 32

/-- The function `ICMPHdr::computeTotalLengthV6`: the sum of the payload length,
`ICMPHdr::SIZE`, `IPv6Hdr::SIZE` and `EthHdr::SIZE` on `uint32_t`, with the value of
`EthHdr::SIZE` as the parameter `ethHdrSize`. -/
def ICMPHdr.computeTotalLengthV6 (ethHdrSize : Nat) (payloadLength : Word32) : Nat :=
  (payloadLength.val + ICMPHdr.SIZE + IPv6Hdr.SIZE + ethHdrSize) % 2 ^ 32

/-- Modelled from the spec: the constant `ETHERTYPE_VLAN`, the 802.1Q ethertype 0x8100. -/
def ETHERTYPE_VLAN : Word16 := 0x8100

/-- Modelled from the spec: the constant `ETHERTYPE_IPV4`, 0x0800. -/
def ETHERTYPE_IPV4 : Word16 := 0x0800

/-- Modelled from the spec: the constant `ETHERTYPE_IPV6`, 0x86DD. -/
def ETHERTYPE_IPV6 : Word16 := 0x86DD

/-- Modelled from the spec: the constant `IP_PROTO_ICMP`, the protocol number 1 of ICMP. -/
def IP_PROTO_ICMP : Byte := 1

/-- Modelled from the spec: the constant `IP_PROTO_IPV6_ICMP`, the next-header value 58
of ICMPv6. -/
def IP_PROTO_IPV6_ICMP : Byte := 58

/-- Modelled from the spec: the members of `IPv4Hdr` that the frame construction and its
specification speak of: the `protocol` field, which `serializePktHdr` checks, and the
payload length that the header announces, which `serializePktHdr` never reads. -/
structure IPv4Hdr where
  protocol : Byte
  payloadLength : Word16
deriving DecidableEq, Repr

/-- The call `cursor->push(buf, len)`: writes the octets and moves on, or throws
`std::out_of_range` when the buffer has not enough room. -/
def RWPrivateCursor.push (bytes : List Byte) (c : RWPrivateCursor) : Except Exn RWPrivateCursor :=
  if bytes.length ≤ c.room.length then .ok ⟨c.written ++ bytes, c.room.drop bytes.length⟩
  else .error .outOfRange

/-- How a call of a frame construction helper ends: it returns, it throws, or a failed
`DCHECK` aborts the process. -/
inductive Outcome (α : Type)
  | returned (value : α)
  | thrown (e : Exn)
  | aborted
deriving DecidableEq, Repr

/-- The first five writes of both `serializePktHdr` overloads: destination MAC, source
MAC, `ETHERTYPE_VLAN`, the VLAN id and the ethertype of the IP version, the three
16-bit values big-endian. -/
def ICMPHdr.serializeEthPart (cursor : RWPrivateCursor) (dstMac srcMac : MacAddress)
    (vlan : Word16) (ethertype : Word16) : Except Exn RWPrivateCursor := do
  let c ← RWPrivateCursor.push dstMac.bytes cursor
  let c ← RWPrivateCursor.push srcMac.bytes c
  let c ← RWPrivateCursor.writeBE16 ETHERTYPE_VLAN c
  let c ← RWPrivateCursor.writeBE16 vlan c
  RWPrivateCursor.writeBE16 ethertype c

/-- The function `ICMPHdr::serializePktHdr` for IPv4: the Ethernet part with
`ETHERTYPE_IPV4`, then `DCHECK_EQ(ipv4.protocol, IP_PROTO_ICMP)`, then `ipv4.write(cursor)`.
`dchecks` tells whether the build keeps `DCHECK`s (a debug build) or compiles them out;
`ipv4Octets` are the octets that `ipv4.write` emits for the already-built header
(`IPv4Hdr::write` is not part of the sources). -/
def ICMPHdr.serializePktHdrV4 (dchecks : Bool) (cursor : RWPrivateCursor)
    (dstMac srcMac : MacAddress) (vlan : Word16) (ipv4 : IPv4Hdr) (ipv4Octets : List Byte) :
    Outcome RWPrivateCursor :=
  match ICMPHdr.serializeEthPart cursor dstMac srcMac vlan ETHERTYPE_IPV4 with
  | .error e => .thrown e
  | .ok c =>
    if dchecks = true ∧ ipv4.protocol ≠ IP_PROTO_ICMP then .aborted
    else
      match RWPrivateCursor.push ipv4Octets c with
      | .error e => .thrown e
      | .ok c1 => .returned c1

/-- The function `ICMPHdr::serializePktHdr` for IPv6: the Ethernet part with
`ETHERTYPE_IPV6`, then `DCHECK_EQ(ipv6.payloadLength, ICMPHdr::SIZE + payloadLength)` and
`DCHECK_EQ(ipv6.nextHeader, IP_PROTO_IPV6_ICMP)`, then `ipv6.serialize(cursor)`.
`dchecks` tells whether the build keeps `DCHECK`s; `ipv6Octets` are the octets that
`ipv6.serialize` emits for the already-built header (`IPv6Hdr::serialize` is not part
of the sources). -/
def ICMPHdr.serializePktHdrV6 (dchecks : Bool) (cursor : RWPrivateCursor)
    (dstMac srcMac : MacAddress) (vlan : Word16) (ipv6 : IPv6Hdr) (ipv6Octets : List Byte)
    (payloadLength : Word32) : Outcome RWPrivateCursor :=
  match ICMPHdr.serializeEthPart cursor dstMac srcMac vlan ETHERTYPE_IPV6 with
  | .error e => .thrown e
  | .ok c =>
    if dchecks = true
        ∧ ipv6.payloadLength.val ≠ (ICMPHdr.SIZE + payloadLength.val) % 2 ^ 32 then .aborted
    else if dchecks = true ∧ ipv6.nextHeader ≠ IP_PROTO_IPV6_ICMP then .aborted
    else
      match RWPrivateCursor.push ipv6Octets c with
      | .error e => .thrown e
      | .ok c1 => .returned c1

/-- The 18 octets that both `serializePktHdr` overloads put in front of the IP header:
destination MAC, source MAC, 0x81 0x00, the VLAN id and the ethertype, the last two as
two big-endian octets each. -/
def ethPartOctets (dstMac srcMac : MacAddress) (vlan ethertype : Word16) : List Byte :=
  dstMac.bytes ++ srcMac.bytes ++
    [0x81, 0x00, ⟨vlan.val / 256, by omega⟩, ⟨vlan.val % 256, by omega⟩,
      ⟨ethertype.val / 256, by omega⟩, ⟨ethertype.val % 256, by omega⟩]

/-! ## Theorems -/

/-- C1: for every four octets b0 b1 b2 b3, constructing an ICMP header from them and
serializing that header at the start of a four-octet buffer (whatever it held) writes
exactly b0 b1 b2 b3 and fills the buffer. -/
theorem icmpHdr_parse_serialize_roundtrip (b0 b1 b2 b3 z0 z1 z2 z3 : Byte) :
    ∃ h : ICMPHdr, ICMPHdr.ctor [b0, b1, b2, b3] = .ok (h, []) ∧
      ICMPHdr.serialize h ⟨[], [z0, z1, z2, z3]⟩ = .ok ⟨[b0, b1, b2, b3], []⟩ := by
  refine ⟨⟨b0, b1, ⟨b2.val * 256 + b3.val, by omega⟩⟩, rfl, ?_⟩
  have h2 : (b2.val * 256 + b3.val) / 256 = b2.val := by omega
  have h3 : (b2.val * 256 + b3.val) % 256 = b3.val := by omega
  simp [ICMPHdr.serialize, RWPrivateCursor.write8, RWPrivateCursor.writeBE16, bind,
    Except.bind, h2, h3]

/-- C2: on every input of fewer than four octets the ICMP header constructor throws
`HdrParseError("ICMPv6 header too small")`; it returns no header, and every read is a
bounds-checked cursor read, so no octet beyond the input is touched. -/
theorem icmpHdr_ctor_truncated (cursor : Cursor) (hlen : cursor.length < 4) :
    ICMPHdr.ctor cursor = .error (.hdrParseError "ICMPv6 header too small") := by
  match cursor, hlen with
  | [], _ => rfl
  | [_], _ => rfl
  | [_, _], _ => rfl
  | [_, _, _], _ => rfl
  | _ :: _ :: _ :: _ :: _, h => simp at h; omega

/-- Witness of C2 on the three-octet input 08 00 f7. -/
theorem icmpHdr_ctor_truncated_witness :
    ([8, 0, 247] : Cursor).length < 4 ∧
      ICMPHdr.ctor [8, 0, 247] = .error (.hdrParseError "ICMPv6 header too small") :=
  ⟨by decide, icmpHdr_ctor_truncated [8, 0, 247] (by decide)⟩

/-- C3: on every input that starts with four octets b0 b1 b2 b3 the ICMP header
constructor succeeds with type b0, code b1 and checksum b2 * 256 + b3, and leaves the
cursor on the tail that follows those four octets. -/
theorem icmpHdr_ctor_ok (b0 b1 b2 b3 : Byte) (tail : Cursor) :
    ∃ h : ICMPHdr, ICMPHdr.ctor (b0 :: b1 :: b2 :: b3 :: tail) = .ok (h, tail) ∧
      h.type = b0 ∧ h.code = b1 ∧ h.csum.val = b2.val * 256 + b3.val ∧
      tail.length + 4 = (b0 :: b1 :: b2 :: b3 :: tail).length :=
  ⟨⟨b0, b1, ⟨b2.val * 256 + b3.val, by omega⟩⟩, rfl, rfl, rfl, rfl, rfl⟩

/-- A sum that fits in 16 bits is left as it is by the carry fold. -/
theorem PktUtil.foldCarries_of_lt {s : Nat} (hs : s < 65536) : PktUtil.foldCarries s = s := by
  rw [PktUtil.foldCarries, if_pos hs]

/-- One round of the carry fold on a sum that does not fit in 16 bits. -/
theorem PktUtil.foldCarries_step {s : Nat} (hs : ¬ s < 65536) :
    PktUtil.foldCarries s = PktUtil.foldCarries (s % 65536 + s / 65536) := by
  rw [PktUtil.foldCarries, if_neg hs]

/-- Closed form of the carry fold: 0 stays 0, and a positive sum goes to its residue
modulo 0xFFFF taken in 1..0xFFFF. -/
theorem PktUtil.foldCarries_eq (s : Nat) :
    PktUtil.foldCarries s = if s = 0 then 0 else (s - 1) % 65535 + 1 := by
  induction s using Nat.strong_induction_on with
  | _ s ih =>
    by_cases hs : s < 65536
    · rw [PktUtil.foldCarries_of_lt hs]
      split <;> omega
    · rw [PktUtil.foldCarries_step hs, ih _ (by omega)]
      split <;> split <;> omega

/-- The carry fold always ends on a value that fits in 16 bits. -/
theorem PktUtil.foldCarries_le (s : Nat) : PktUtil.foldCarries s ≤ 65535 := by
  rw [PktUtil.foldCarries_eq]
  split <;> omega

/-- The accumulation loop over `length` available octets adds the big-endian words of
those octets to the seed, on 32 bits. -/
theorem PktUtil.sumWords_eq : ∀ (cursor : Cursor) (length sum : Nat), sum < 2 ^ 32 →
    length ≤ cursor.length →
    PktUtil.sumWords cursor length sum
      = .ok ((sum + (be16Words (cursor.take length)).sum) % 2 ^ 32)
  | cursor, 0, sum, hs, _ => by
    cases cursor <;> simp [PktUtil.sumWords, be16Words] <;> omega
  | [], _ + 1, _, _, h => by simp at h
  | b :: rest, 1, sum, _, _ => by simp [PktUtil.sumWords, be16Words]
  | [_], _ + 2, _, _, h => by simp at h
  | b0 :: b1 :: rest, n + 2, sum, _, h => by
    have hn : n ≤ rest.length := by simpa using h
    rw [PktUtil.sumWords, PktUtil.sumWords_eq rest n _ (Nat.mod_lt _ (by norm_num)) hn]
    simp only [List.take_succ_cons, be16Words, List.sum_cons]
    congr 1
    omega

/-- The accumulation loop fails when the cursor holds fewer than `length` octets. -/
theorem PktUtil.sumWords_error : ∀ (cursor : Cursor) (length sum : Nat),
    cursor.length < length → PktUtil.sumWords cursor length sum = .error .truncatedBody
  | _, 0, _, h => by simp at h
  | [], _ + 1, _, _ => by simp [PktUtil.sumWords]
  | _ :: rest, 1, _, h => by simp at h
  | [_], _ + 2, _, _ => by simp [PktUtil.sumWords]
  | _ :: _ :: rest, n + 2, sum, h => by
    have hn : rest.length < n := by simpa using h
    rw [PktUtil.sumWords, PktUtil.sumWords_error rest n _ hn]

/-- On octets, `(type << 8) + code` and `type << 8 | code` are the same word. -/
theorem typeCode_add_eq_or (t c : Byte) : t.val <<< 8 + c.val = t.val <<< 8 ||| c.val := by
  have h := Nat.mul_add_lt_is_or (i := 8) (b := c.val) (by have := c.isLt; omega) t.val
  rw [Nat.shiftLeft_eq, Nat.mul_comm]
  exact h

/-- Adding the complement of its own folded value to a 32-bit sum does not overflow 32
bits and folds to 0xFFFF. -/
theorem PktUtil.foldCarries_add_complement (t : Nat) (ht : t < 2 ^ 32) :
    PktUtil.foldCarries ((t + (65535 - PktUtil.foldCarries t)) % 2 ^ 32) = 65535 := by
  rw [PktUtil.foldCarries_eq t]
  by_cases h0 : t = 0
  · subst h0
    rw [PktUtil.foldCarries_eq]
    norm_num
  · rw [if_neg h0]
    have hk : (t - 1) / 65535 ≤ 65536 := by omega
    have hsum : t + (65535 - ((t - 1) % 65535 + 1)) = 65535 * ((t - 1) / 65535 + 1) := by omega
    have hlt : t + (65535 - ((t - 1) % 65535 + 1)) < 2 ^ 32 := by omega
    rw [Nat.mod_eq_of_lt hlt, PktUtil.foldCarries_eq, hsum]
    split <;> omega

/-- The fold of seed, checksum and words is 0xFFFF, the 32-bit accumulator wrapping or not. -/
theorem PktUtil.self_check_total (s w : Nat) :
    PktUtil.foldCarries
      (((s + (65535 - PktUtil.foldCarries ((s + w) % 2 ^ 32))) % 2 ^ 32 + w) % 2 ^ 32) = 65535 := by
  have h := PktUtil.foldCarries_add_complement ((s + w) % 2 ^ 32) (Nat.mod_lt _ (by norm_num))
  generalize PktUtil.foldCarries ((s + w) % 2 ^ 32) = f at h ⊢
  have e : ((s + (65535 - f)) % 2 ^ 32 + w) % 2 ^ 32
      = ((s + w) % 2 ^ 32 + (65535 - f)) % 2 ^ 32 := by omega
  rw [e]
  exact h

/-- The Checksum Engine run again with its own result added to the seed folds to 0xFFFF. -/
theorem PktUtil.self_check (body : Cursor) (s : Nat) (hs : s < 2 ^ 32) :
    ∃ c : Word16, PktUtil.finalizeChecksum body body.length s = .ok c.val ∧
      ∃ total, PktUtil.sumWords body body.length ((s + c.val) % 2 ^ 32) = .ok total ∧
        PktUtil.foldCarries total = 65535 := by
  have hle := PktUtil.foldCarries_le ((s + (be16Words (body.take body.length)).sum) % 2 ^ 32)
  refine ⟨⟨65535 - PktUtil.foldCarries
    ((s + (be16Words (body.take body.length)).sum) % 2 ^ 32), by omega⟩, ?_, ?_⟩
  · simp only [PktUtil.finalizeChecksum, PktUtil.sumWords_eq body body.length s hs le_rfl]
  · exact ⟨_, PktUtil.sumWords_eq body body.length _ (Nat.mod_lt _ (by norm_num)) le_rfl,
      PktUtil.self_check_total s _⟩

/-- The header word `(type << 8) + code` fits in 16 bits. -/
theorem typeCode_lt (t c : Byte) : t.val <<< 8 + c.val < 65536 := by
  rw [Nat.shiftLeft_eq]
  omega

/-- C4: one's-complement self-check. For every type, code and body, of even or odd
length: the checksum c that computeChecksum returns for the header with a zero checksum
field (IPv6 overload with any pseudo-header contribution and payload length body + 4;
IPv4 overload with the body length) makes the verifier, which folds the same seed, the
header words type << 8 | code and c, and the body, obtain the folded sum 0xFFFF; the
complemented result of that fold is 0. -/
theorem checksum_self_check (type code : Byte) (body : Cursor) :
    (∀ ip : IPv6Hdr, ip.payloadLength.val = body.length + 4 →
      ∃ c : Word16, ICMPHdr.computeChecksumV6 ⟨type, code, 0⟩ ip body = .ok c.val ∧
        verifierFoldedSum ip.pseudoHdrPartialCsum ⟨type, code, c⟩ body = .ok 65535 ∧
        PktUtil.finalizeChecksum body body.length
          ((ip.pseudoHdrPartialCsum.val + (type.val <<< 8 ||| code.val) + c.val) % 2 ^ 32)
          = .ok 0) ∧
    (∀ payloadLength : Word32, payloadLength.val = body.length →
      ∃ c : Word16, ICMPHdr.computeChecksumV4 ⟨type, code, 0⟩ body payloadLength = .ok c.val ∧
        verifierFoldedSum 0 ⟨type, code, c⟩ body = .ok 65535 ∧
        PktUtil.finalizeChecksum body body.length
          ((0 + (type.val <<< 8 ||| code.val) + c.val) % 2 ^ 32) = .ok 0) := by
  constructor
  · intro ip hlen
    obtain ⟨c, hc, total, htot, hfold⟩ := PktUtil.self_check body
      ((ip.pseudoHdrPartialCsum.val + (type.val <<< 8 + code.val)) % 2 ^ 32)
      (Nat.mod_lt _ (by norm_num))
    have hL : (ip.payloadLength.val + 2 ^ 32 - ICMPHdr.SIZE) % 2 ^ 32 = body.length := by
      have := ip.payloadLength.isLt
      simp only [ICMPHdr.SIZE]
      omega
    have hseed : (ip.pseudoHdrPartialCsum.val + (type.val <<< 8 ||| code.val) + c.val) % 2 ^ 32
        = ((ip.pseudoHdrPartialCsum.val + (type.val <<< 8 + code.val)) % 2 ^ 32 + c.val)
            % 2 ^ 32 := by
      rw [← typeCode_add_eq_or]
      omega
    refine ⟨c, ?_, ?_, ?_⟩
    · simp only [ICMPHdr.computeChecksumV6, hL]
      exact hc
    · simp only [verifierFoldedSum, hseed, htot, hfold]
    · simp only [PktUtil.finalizeChecksum, hseed, htot, hfold]
  · intro payloadLength hlen
    obtain ⟨c, hc, total, htot, hfold⟩ := PktUtil.self_check body
      ((0 + (type.val <<< 8 + code.val)) % 2 ^ 32) (Nat.mod_lt _ (by norm_num))
    have hseed : (0 + (type.val <<< 8 ||| code.val) + c.val) % 2 ^ 32
        = ((0 + (type.val <<< 8 + code.val)) % 2 ^ 32 + c.val) % 2 ^ 32 := by
      rw [← typeCode_add_eq_or]
      omega
    refine ⟨c, ?_, ?_, ?_⟩
    · simp only [ICMPHdr.computeChecksumV4, hlen]
      exact hc
    · simp only [verifierFoldedSum, Fin.val_zero, hseed, htot, hfold]
    · simp only [PktUtil.finalizeChecksum, hseed, htot, hfold]

/-- Witness of C4: an echo request (type 128, code 0) with the odd body 01 02 03, an
IPv6 header of payload length 7 with pseudo-header contribution 10, and the IPv4
overload with length 3. -/
theorem checksum_self_check_witness :
    ((⟨7, 58, 10⟩ : IPv6Hdr).payloadLength.val = ([1, 2, 3] : Cursor).length + 4 ∧
      ∃ c : Word16, ICMPHdr.computeChecksumV6 ⟨128, 0, 0⟩ ⟨7, 58, 10⟩ [1, 2, 3] = .ok c.val ∧
        verifierFoldedSum (10 : Word32) ⟨128, 0, c⟩ [1, 2, 3] = .ok 65535 ∧
        PktUtil.finalizeChecksum [1, 2, 3] ([1, 2, 3] : Cursor).length
          (((10 : Word32).val + ((128 : Byte).val <<< 8 ||| (0 : Byte).val) + c.val) % 2 ^ 32)
          = .ok 0) ∧
    ((3 : Word32).val = ([1, 2, 3] : Cursor).length ∧
      ∃ c : Word16, ICMPHdr.computeChecksumV4 ⟨128, 0, 0⟩ [1, 2, 3] 3 = .ok c.val ∧
        verifierFoldedSum 0 ⟨128, 0, c⟩ [1, 2, 3] = .ok 65535 ∧
        PktUtil.finalizeChecksum [1, 2, 3] ([1, 2, 3] : Cursor).length
          ((0 + ((128 : Byte).val <<< 8 ||| (0 : Byte).val) + c.val) % 2 ^ 32) = .ok 0) :=
  ⟨⟨rfl, (checksum_self_check 128 0 [1, 2, 3]).1 ⟨7, 58, 10⟩ rfl⟩,
   ⟨rfl, (checksum_self_check 128 0 [1, 2, 3]).2 3 rfl⟩⟩

/-- C5: for every header, IPv6 header with pseudo-header contribution p and payload
length L with L >= 4, and body with at least L - 4 octets, the IPv6 computeChecksum is
the Checksum Engine fold seeded with p + (type << 8 | code) (on 32 bits) over L - 4
octets of body, and its value is the bitwise complement of the carry-folded 32-bit sum
of that seed and the 16-bit big-endian words of the first L - 4 octets of the body, a
trailing odd octet being padded with 0x00. -/
theorem computeChecksumV6_eq_engine (h : ICMPHdr) (ip : IPv6Hdr) (body : Cursor)
    (h4 : 4 ≤ ip.payloadLength.val) (hav : ip.payloadLength.val - 4 ≤ body.length) :
    ICMPHdr.computeChecksumV6 h ip body
      = PktUtil.finalizeChecksum body (ip.payloadLength.val - 4)
          ((ip.pseudoHdrPartialCsum.val + (h.type.val <<< 8 ||| h.code.val)) % 2 ^ 32) ∧
    ICMPHdr.computeChecksumV6 h ip body
      = .ok (complementOfFoldedSum
          (ip.pseudoHdrPartialCsum.val + (h.type.val <<< 8 ||| h.code.val))
          (body.take (ip.payloadLength.val - 4))) := by
  have hL : (ip.payloadLength.val + 2 ^ 32 - ICMPHdr.SIZE) % 2 ^ 32
      = ip.payloadLength.val - 4 := by
    have := ip.payloadLength.isLt
    simp only [ICMPHdr.SIZE]
    omega
  have hmod : ∀ a w : Nat, (a % 2 ^ 32 + w) % 2 ^ 32 = (a + w) % 2 ^ 32 := by
    intro a w
    omega
  constructor
  · simp only [ICMPHdr.computeChecksumV6, hL, typeCode_add_eq_or]
  · simp only [ICMPHdr.computeChecksumV6, hL, typeCode_add_eq_or, PktUtil.finalizeChecksum,
      PktUtil.sumWords_eq body _ _ (Nat.mod_lt _ (by norm_num)) hav, complementOfFoldedSum, hmod]

/-- Witness of C5: type 135, code 0, payload length 7, contribution 10, body 01 02 03 04. -/
theorem computeChecksumV6_eq_engine_witness :
    4 ≤ (⟨7, 58, 10⟩ : IPv6Hdr).payloadLength.val ∧
    (⟨7, 58, 10⟩ : IPv6Hdr).payloadLength.val - 4 ≤ ([1, 2, 3, 4] : Cursor).length ∧
    ICMPHdr.computeChecksumV6 ⟨135, 0, 0⟩ ⟨7, 58, 10⟩ [1, 2, 3, 4]
      = PktUtil.finalizeChecksum [1, 2, 3, 4] ((⟨7, 58, 10⟩ : IPv6Hdr).payloadLength.val - 4)
          (((⟨7, 58, 10⟩ : IPv6Hdr).pseudoHdrPartialCsum.val
            + ((⟨135, 0, 0⟩ : ICMPHdr).type.val <<< 8 ||| (⟨135, 0, 0⟩ : ICMPHdr).code.val))
              % 2 ^ 32) ∧
    ICMPHdr.computeChecksumV6 ⟨135, 0, 0⟩ ⟨7, 58, 10⟩ [1, 2, 3, 4]
      = .ok (complementOfFoldedSum
          ((⟨7, 58, 10⟩ : IPv6Hdr).pseudoHdrPartialCsum.val
            + ((⟨135, 0, 0⟩ : ICMPHdr).type.val <<< 8 ||| (⟨135, 0, 0⟩ : ICMPHdr).code.val))
          (([1, 2, 3, 4] : Cursor).take ((⟨7, 58, 10⟩ : IPv6Hdr).payloadLength.val - 4))) :=
  ⟨by decide, by decide,
    computeChecksumV6_eq_engine ⟨135, 0, 0⟩ ⟨7, 58, 10⟩ [1, 2, 3, 4] (by decide) (by decide)⟩

/-- C6, as stated, fails: with the same length 4 and the body 00 01 00 00 the IPv4
overload folds four octets of body and returns 0xF7FE, the IPv6 overload with a zero
pseudo-header contribution folds 4 - 4 = 0 octets and returns 0xF7FF. -/
theorem computeChecksumV4_ne_V6_same_length :
    ICMPHdr.computeChecksumV4 ⟨8, 0, 0⟩ [0, 1, 0, 0] 4 = .ok 63486 ∧
    ICMPHdr.computeChecksumV6 ⟨8, 0, 0⟩ ⟨4, 58, 0⟩ [0, 1, 0, 0] = .ok 63487 ∧
    PktUtil.finalizeChecksum [0, 1, 0, 0] (4 - 4) ((8 : Byte).val <<< 8 ||| (0 : Byte).val)
      = .ok 63487 ∧
    ICMPHdr.computeChecksumV4 ⟨8, 0, 0⟩ [0, 1, 0, 0] 4
      ≠ ICMPHdr.computeChecksumV6 ⟨8, 0, 0⟩ ⟨4, 58, 0⟩ [0, 1, 0, 0] := by
  have h4 : ICMPHdr.computeChecksumV4 ⟨8, 0, 0⟩ [0, 1, 0, 0] 4 = .ok 63486 := by
    simp only [ICMPHdr.computeChecksumV4, PktUtil.finalizeChecksum, PktUtil.sumWords,
      PktUtil.foldCarries_eq]
    decide
  have h6 : ICMPHdr.computeChecksumV6 ⟨8, 0, 0⟩ ⟨4, 58, 0⟩ [0, 1, 0, 0] = .ok 63487 := by
    simp only [ICMPHdr.computeChecksumV6, ICMPHdr.SIZE, PktUtil.finalizeChecksum,
      PktUtil.sumWords, PktUtil.foldCarries_eq]
    decide
  refine ⟨h4, h6, ?_, ?_⟩
  · simp only [PktUtil.finalizeChecksum, PktUtil.sumWords, PktUtil.foldCarries_eq]
    decide
  · rw [h4, h6]
    decide

/-- C6, amended: the IPv4 computeChecksum folds all L octets that its length argument
names. It equals the IPv6 computeChecksum with a zero pseudo-header contribution and
the IPv6 payload length L + 4, that is the Checksum Engine fold seeded with
type << 8 | code over L octets of body. -/
theorem computeChecksumV4_eq_V6 (h : ICMPHdr) (body : Cursor) (payloadLength : Word32)
    (ip : IPv6Hdr) (hp : ip.pseudoHdrPartialCsum = 0)
    (hL : ip.payloadLength.val = payloadLength.val + 4) :
    ICMPHdr.computeChecksumV4 h body payloadLength = ICMPHdr.computeChecksumV6 h ip body ∧
    ICMPHdr.computeChecksumV4 h body payloadLength
      = PktUtil.finalizeChecksum body payloadLength.val (h.type.val <<< 8 ||| h.code.val) := by
  have hlen : (ip.payloadLength.val + 2 ^ 32 - ICMPHdr.SIZE) % 2 ^ 32 = payloadLength.val := by
    have := payloadLength.isLt
    simp only [ICMPHdr.SIZE, hL]
    omega
  have hseed : (0 + (h.type.val <<< 8 + h.code.val)) % 2 ^ 32
      = h.type.val <<< 8 ||| h.code.val := by
    have := typeCode_lt h.type h.code
    rw [← typeCode_add_eq_or]
    omega
  constructor
  · simp only [ICMPHdr.computeChecksumV4, ICMPHdr.computeChecksumV6, hp, hlen, Fin.val_zero]
  · simp only [ICMPHdr.computeChecksumV4, hseed]

/-- Witness of the amended C6: echo request, body 00 01 00 00, length 4 against the IPv6
payload length 8. -/
theorem computeChecksumV4_eq_V6_witness :
    (⟨8, 58, 0⟩ : IPv6Hdr).pseudoHdrPartialCsum = 0 ∧
    (⟨8, 58, 0⟩ : IPv6Hdr).payloadLength.val = (4 : Word32).val + 4 ∧
    ICMPHdr.computeChecksumV4 ⟨8, 0, 0⟩ [0, 1, 0, 0] 4
      = ICMPHdr.computeChecksumV6 ⟨8, 0, 0⟩ ⟨8, 58, 0⟩ [0, 1, 0, 0] ∧
    ICMPHdr.computeChecksumV4 ⟨8, 0, 0⟩ [0, 1, 0, 0] 4
      = PktUtil.finalizeChecksum [0, 1, 0, 0] (4 : Word32).val
          ((⟨8, 0, 0⟩ : ICMPHdr).type.val <<< 8 ||| (⟨8, 0, 0⟩ : ICMPHdr).code.val) :=
  ⟨rfl, rfl, computeChecksumV4_eq_V6 ⟨8, 0, 0⟩ [0, 1, 0, 0] 4 ⟨8, 58, 0⟩ rfl rfl⟩

/-- C7: the checksum is never computed over itself. Two headers with the same type and
code and any two stored checksum fields give the same value in both computeChecksum
overloads, for the same IPv6 header, body and length. Both methods are const functions
of the header value: they return the checksum alone and hand back no header. -/
theorem computeChecksum_ignores_csum (type code : Byte) (csum1 csum2 : Word16)
    (ip : IPv6Hdr) (body : Cursor) (payloadLength : Word32) :
    ICMPHdr.computeChecksumV6 ⟨type, code, csum1⟩ ip body
      = ICMPHdr.computeChecksumV6 ⟨type, code, csum2⟩ ip body ∧
    ICMPHdr.computeChecksumV4 ⟨type, code, csum1⟩ body payloadLength
      = ICMPHdr.computeChecksumV4 ⟨type, code, csum2⟩ body payloadLength :=
  ⟨rfl, rfl⟩

/-- A host-order 16-bit read of two octets is 0 exactly when both octets are 0. -/
theorem Cursor.read16_eq_zero_iff (host : ByteOrder) (b0 b1 : Byte) (rest : Cursor) :
    ∃ r : Word16, Cursor.read16 host (b0 :: b1 :: rest) = .ok (r, rest) ∧
      (r = 0 ↔ b0 = 0 ∧ b1 = 0) := by
  cases host
  · refine ⟨_, rfl, ?_⟩
    simp only [Fin.ext_iff, Fin.val_zero]
    omega
  · refine ⟨_, rfl, ?_⟩
    simp only [Fin.ext_iff, Fin.val_zero]
    omega

/-- With fewer than two octets getMtu reports the option as too small. -/
theorem NDPOptions.getMtu_short (host : ByteOrder) (cursor : Cursor) (h : cursor.length < 2) :
    NDPOptions.getMtu host cursor = .error (.hdrParseError "NDP MTU option is too small") := by
  match cursor, h with
  | [], _ => rfl
  | [_], _ => rfl
  | _ :: _ :: _, h =>
    simp only [List.length_cons] at h
    omega

/-- With a reserved field that is not zero getMtu reports it, whatever follows. -/
theorem NDPOptions.getMtu_reserved (host : ByteOrder) (b0 b1 : Byte) (rest : Cursor)
    (h : ¬ (b0 = 0 ∧ b1 = 0)) :
    NDPOptions.getMtu host (b0 :: b1 :: rest)
      = .error (.hdrParseError "NDP MTU Option has non zero reserved field") := by
  obtain ⟨r, hr, hz⟩ := Cursor.read16_eq_zero_iff host b0 b1 rest
  have hne : r ≠ 0 := fun e => h (hz.1 e)
  simp only [NDPOptions.getMtu, hr, bind, Except.bind, hne, ne_eq, not_false_eq_true, if_true]

/-- After a zero reserved field getMtu is the host-order 32-bit read of what follows,
its underflow reported as an option that is too small. -/
theorem NDPOptions.getMtu_zero (host : ByteOrder) (rest : Cursor) :
    NDPOptions.getMtu host (0 :: 0 :: rest)
      = match Cursor.read32 host rest with
        | .error .outOfRange => .error (.hdrParseError "NDP MTU option is too small")
        | r => r := by
  obtain ⟨r, hr, hz⟩ := Cursor.read16_eq_zero_iff host 0 0 rest
  have h0 : r = 0 := hz.2 ⟨rfl, rfl⟩
  subst h0
  simp only [NDPOptions.getMtu, hr, bind, Except.bind, ne_eq, not_true_eq_false, if_false]
  rfl

/-- C8: getMtu reads the MTU with `read<uint32_t>`, in the byte order of the host. After a
zero reserved field, on a little-endian host it returns m3 * 2^24 + m2 * 2^16 + m1 * 2^8 + m0
for the value octets m0 m1 m2 m3, so 00 00 00 00 05 DC yields 3691315200 (0xDC050000)
and not 1500; the big-endian value comes out on a big-endian host only. -/
theorem getMtu_host_byte_order (m0 m1 m2 m3 : Byte) (rest : Cursor) :
    (∃ v : Word32, NDPOptions.getMtu .littleEndian (0 :: 0 :: m0 :: m1 :: m2 :: m3 :: rest)
        = .ok (v, rest) ∧
      v.val = m3.val * 2 ^ 24 + m2.val * 2 ^ 16 + m1.val * 2 ^ 8 + m0.val) ∧
    (∃ v : Word32, NDPOptions.getMtu .bigEndian (0 :: 0 :: m0 :: m1 :: m2 :: m3 :: rest)
        = .ok (v, rest) ∧
      v.val = m0.val * 2 ^ 24 + m1.val * 2 ^ 16 + m2.val * 2 ^ 8 + m3.val) ∧
    NDPOptions.getMtu .littleEndian [0, 0, 0, 0, 5, 220] = .ok (3691315200, []) ∧
    NDPOptions.getMtu .bigEndian [0, 0, 0, 0, 5, 220] = .ok (1500, []) := by
  refine ⟨⟨⟨m3.val * 16777216 + m2.val * 65536 + m1.val * 256 + m0.val, by omega⟩, ?_, ?_⟩,
    ⟨⟨m0.val * 16777216 + m1.val * 65536 + m2.val * 256 + m3.val, by omega⟩, ?_, ?_⟩,
    by decide, by decide⟩
  · rw [NDPOptions.getMtu_zero]
    rfl
  · norm_num
  · rw [NDPOptions.getMtu_zero]
    rfl
  · norm_num

/-- C9: getMtu classifies every input, on either host byte order. It throws the
non-zero-reserved-field error exactly when at least two octets remain and the first two
are not both zero; it throws the option-too-small error exactly when fewer than two
octets remain, or the first two are zero and fewer than six remain; it succeeds,
leaving the cursor six octets further on, exactly when the first two octets are zero
and at least six remain; and one of the three always applies. -/
theorem getMtu_classification (host : ByteOrder) (cursor : Cursor) :
    (NDPOptions.getMtu host cursor
        = .error (.hdrParseError "NDP MTU Option has non zero reserved field") ↔
      ∃ b0 b1 rest, cursor = b0 :: b1 :: rest ∧ ¬ (b0 = 0 ∧ b1 = 0)) ∧
    (NDPOptions.getMtu host cursor = .error (.hdrParseError "NDP MTU option is too small") ↔
      cursor.length < 2 ∨ ((∃ rest, cursor = 0 :: 0 :: rest) ∧ cursor.length < 6)) ∧
    ((∃ v, NDPOptions.getMtu host cursor = .ok (v, cursor.drop 6)) ↔
      (∃ rest, cursor = 0 :: 0 :: rest) ∧ 6 ≤ cursor.length) ∧
    ((∃ v rest, NDPOptions.getMtu host cursor = .ok (v, rest)) ↔
      (∃ rest, cursor = 0 :: 0 :: rest) ∧ 6 ≤ cursor.length) := by
  match cursor with
  | [] => simp [NDPOptions.getMtu_short]
  | [_] => simp [NDPOptions.getMtu_short]
  | b0 :: b1 :: rest =>
    by_cases hz : b0 = 0 ∧ b1 = 0
    · obtain ⟨rfl, rfl⟩ := hz
      rw [NDPOptions.getMtu_zero]
      match rest with
      | [] => simp [Cursor.read32]
      | [_] => simp [Cursor.read32]
      | [_, _] => simp [Cursor.read32]
      | [_, _, _] => simp [Cursor.read32]
      | m0 :: m1 :: m2 :: m3 :: tail => cases host <;> simp [Cursor.read32]
    · rw [NDPOptions.getMtu_reserved host b0 b1 rest hz]
      simp only [not_and] at hz
      simp
      exact ⟨⟨b0, b1, ⟨rfl, rfl⟩, hz⟩, fun h0 h1 => absurd h1 (hz h0),
        fun h0 h1 => absurd h1 (hz h0)⟩

/-- C10: the NDP option header constructor succeeds on every input that starts with two
octets t and l, for every value of t (no type code is rejected), returning option type
t and length l with the cursor exactly two octets further on; it throws
`HdrParseError("NDP Option is not present")` exactly when fewer than two octets remain,
and it throws nothing else. -/
theorem ndpOptionHdr_ctor_classification (cursor : Cursor) :
    (∀ (t l : Byte) (rest : Cursor),
      NDPOptionHdr.ctor (t :: l :: rest) = .ok (⟨t, l⟩, rest) ∧
        rest.length + 2 = (t :: l :: rest).length) ∧
    (NDPOptionHdr.ctor cursor = .error (.hdrParseError "NDP Option is not present") ↔
      cursor.length < 2) ∧
    ((∃ e, NDPOptionHdr.ctor cursor = .error e) ↔ cursor.length < 2) := by
  refine ⟨fun t l rest => ⟨rfl, rfl⟩, ?_, ?_⟩
  · match cursor with
    | [] => simp [NDPOptionHdr.ctor, Cursor.read8, bind, Except.bind]
    | [_] => simp [NDPOptionHdr.ctor, Cursor.read8, bind, Except.bind]
    | _ :: _ :: _ => simp [NDPOptionHdr.ctor, Cursor.read8, bind, Except.bind, pure, Except.pure]
  · match cursor with
    | [] => simp [NDPOptionHdr.ctor, Cursor.read8, bind, Except.bind]
    | [_] => simp [NDPOptionHdr.ctor, Cursor.read8, bind, Except.bind]
    | _ :: _ :: _ => simp [NDPOptionHdr.ctor, Cursor.read8, bind, Except.bind, pure, Except.pure]

/-- The walk over an empty cursor ends at once with the options it was given. -/
theorem NDPOptions.getAllLoop_nil (host : ByteOrder) (options : NDPOptions) :
    NDPOptions.getAllLoop host [] options = (options, none) := by
  rw [NDPOptions.getAllLoop]
  simp

/-- One round of the walk over a cursor that is not empty. -/
theorem NDPOptions.getAllLoop_cons (host : ByteOrder) (b : Byte) (rest : Cursor)
    (options : NDPOptions) :
    NDPOptions.getAllLoop host (b :: rest) options
      = match NDPOptions.getAllBody host (b :: rest) options with
        | .error e => (options, some e)
        | .ok (options1, cursor1) => NDPOptions.getAllLoop host cursor1 options1 := by
  rw [NDPOptions.getAllLoop]
  simp only [List.length_cons, Nat.add_one_ne_zero, if_false]
  split <;> simp_all

/-- The loop body on an MTU option: the value decoder runs on what follows the header. -/
theorem NDPOptions.getAllBody_mtu (host : ByteOrder) (l : Byte) (rest : Cursor)
    (options : NDPOptions) :
    NDPOptions.getAllBody host (5 :: l :: rest) options
      = match NDPOptions.getMtu host rest with
        | .error e => .error e
        | .ok (mtu, c2) => .ok ({ options with mtu := some mtu }, c2) := by
  simp only [NDPOptions.getAllBody, NDPOptionHdr.ctor, Cursor.read8, bind, Except.bind, pure,
    Except.pure, ICMPV6_NDP_OPTION_MTU, if_true]
  split <;> simp_all

/-- The loop body on a source link-layer address option. -/
theorem NDPOptions.getAllBody_sourceLinkLayer (host : ByteOrder) (l : Byte) (rest : Cursor)
    (options : NDPOptions) :
    NDPOptions.getAllBody host (1 :: l :: rest) options
      = match NDPOptions.getSourceLinkLayerAddress rest with
        | .error e => .error e
        | .ok (mac, c2) => .ok ({ options with sourceLinkLayerAddress := some mac }, c2) := by
  have h15 : ¬ ((1 : Byte) = 5) := by decide
  simp only [NDPOptions.getAllBody, NDPOptionHdr.ctor, Cursor.read8, bind, Except.bind, pure,
    Except.pure, ICMPV6_NDP_OPTION_MTU, ICMPV6_NDP_OPTION_SOURCE_LINK_LAYER_ADDRESS, h15,
    if_true, if_false]
  split <;> simp_all

/-- The loop body on an option of any other type: only the two header octets are consumed. -/
theorem NDPOptions.getAllBody_other (host : ByteOrder) (t l : Byte) (rest : Cursor)
    (options : NDPOptions) (h5 : t ≠ 5) (h1 : t ≠ 1) :
    NDPOptions.getAllBody host (t :: l :: rest) options = .ok (options, rest) := by
  simp only [NDPOptions.getAllBody, NDPOptionHdr.ctor, Cursor.read8, bind, Except.bind, pure,
    Except.pure, ICMPV6_NDP_OPTION_MTU, ICMPV6_NDP_OPTION_SOURCE_LINK_LAYER_ADDRESS, h5, h1,
    if_false, ite_self]

/-- The loop body on a lone octet: the option header is not present. -/
theorem NDPOptions.getAllBody_single (host : ByteOrder) (b : Byte) (options : NDPOptions) :
    NDPOptions.getAllBody host [b] options
      = .error (.hdrParseError "NDP Option is not present") := rfl

/-- On a zero reserved field followed by four octets getMtu returns their host-order value. -/
theorem NDPOptions.getMtu_ok (host : ByteOrder) (m0 m1 m2 m3 : Byte) (rest : Cursor) :
    NDPOptions.getMtu host (0 :: 0 :: m0 :: m1 :: m2 :: m3 :: rest)
      = .ok (hostOrder32 host m0 m1 m2 m3, rest) := by
  rw [NDPOptions.getMtu_zero]
  cases host <;> rfl

/-- The two outcomes of getMtu: a `HdrParseError`, or the host-order value of the four
octets behind a zero reserved field with the cursor behind them. -/
theorem NDPOptions.getMtu_cases (host : ByteOrder) (cursor : Cursor) :
    (∃ msg, NDPOptions.getMtu host cursor = .error (.hdrParseError msg)) ∨
    (∃ m0 m1 m2 m3 rest, cursor = 0 :: 0 :: m0 :: m1 :: m2 :: m3 :: rest ∧
      NDPOptions.getMtu host cursor = .ok (hostOrder32 host m0 m1 m2 m3, rest)) := by
  match cursor with
  | [] => exact .inl ⟨_, rfl⟩
  | [_] => exact .inl ⟨_, rfl⟩
  | b0 :: b1 :: rest =>
    by_cases hz : b0 = 0 ∧ b1 = 0
    · obtain ⟨rfl, rfl⟩ := hz
      match rest with
      | [] => exact .inl ⟨_, NDPOptions.getMtu_zero host []⟩
      | [_] => exact .inl ⟨_, NDPOptions.getMtu_zero host [_]⟩
      | [_, _] => exact .inl ⟨_, NDPOptions.getMtu_zero host [_, _]⟩
      | [_, _, _] => exact .inl ⟨_, NDPOptions.getMtu_zero host [_, _, _]⟩
      | m0 :: m1 :: m2 :: m3 :: tail =>
        exact .inr ⟨m0, m1, m2, m3, tail, rfl, NDPOptions.getMtu_ok host m0 m1 m2 m3 tail⟩
    · exact .inl ⟨_, NDPOptions.getMtu_reserved host b0 b1 rest hz⟩

/-- The two outcomes of getSourceLinkLayerAddress: a `HdrParseError` when fewer than six
octets remain, or else the six octets as an address with the cursor behind them. -/
theorem NDPOptions.getSourceLinkLayerAddress_cases (cursor : Cursor) :
    (cursor.length < 6 ∧ NDPOptions.getSourceLinkLayerAddress cursor
        = .error (.hdrParseError "NDP Source Link Layer option is too small")) ∨
    (∃ (mac : MacAddress) (rest : Cursor), cursor = mac.bytes ++ rest ∧
      NDPOptions.getSourceLinkLayerAddress cursor = .ok (mac, rest)) := by
  match cursor with
  | [] => exact .inl ⟨by simp, rfl⟩
  | [_] => exact .inl ⟨by simp, rfl⟩
  | [_, _] => exact .inl ⟨by simp, rfl⟩
  | [_, _, _] => exact .inl ⟨by simp, rfl⟩
  | [_, _, _, _] => exact .inl ⟨by simp, rfl⟩
  | [_, _, _, _, _] => exact .inl ⟨by simp, rfl⟩
  | a0 :: a1 :: a2 :: a3 :: a4 :: a5 :: rest =>
    exact .inr ⟨⟨a0, a1, a2, a3, a4, a5⟩, rest, rfl, rfl⟩

/-- The outcomes of one pass through the loop body: a `HdrParseError`; a decoded MTU
option of eight octets; a decoded source link-layer option of eight octets; or an
option of another type, of which the two header octets are consumed. -/
theorem NDPOptions.getAllBody_cases (host : ByteOrder) (cursor : Cursor) (options : NDPOptions) :
    (∃ msg, NDPOptions.getAllBody host cursor options = .error (.hdrParseError msg)) ∨
    (∃ l m0 m1 m2 m3 rest, cursor = 5 :: l :: 0 :: 0 :: m0 :: m1 :: m2 :: m3 :: rest ∧
      NDPOptions.getAllBody host cursor options
        = .ok ({ options with mtu := some (hostOrder32 host m0 m1 m2 m3) }, rest)) ∨
    (∃ (l : Byte) (mac : MacAddress) (rest : Cursor), cursor = 1 :: l :: (mac.bytes ++ rest) ∧
      NDPOptions.getAllBody host cursor options
        = .ok ({ options with sourceLinkLayerAddress := some mac }, rest)) ∨
    (∃ t l rest, t ≠ 5 ∧ t ≠ 1 ∧ cursor = t :: l :: rest ∧
      NDPOptions.getAllBody host cursor options = .ok (options, rest)) := by
  match cursor with
  | [] => exact .inl ⟨_, rfl⟩
  | [_] => exact .inl ⟨_, rfl⟩
  | t :: l :: rest =>
    by_cases h5 : t = 5
    · subst h5
      rw [NDPOptions.getAllBody_mtu]
      rcases NDPOptions.getMtu_cases host rest with ⟨msg, hm⟩ | ⟨m0, m1, m2, m3, tail, rfl, hm⟩
      · exact .inl ⟨msg, by rw [hm]⟩
      · exact .inr (.inl ⟨l, m0, m1, m2, m3, tail, rfl, by rw [hm]⟩)
    · by_cases h1 : t = 1
      · subst h1
        rw [NDPOptions.getAllBody_sourceLinkLayer]
        rcases NDPOptions.getSourceLinkLayerAddress_cases rest with ⟨_, hm⟩ | ⟨mac, tail, rfl, hm⟩
        · exact .inl ⟨_, by rw [hm]⟩
        · exact .inr (.inr (.inl ⟨l, mac, tail, rfl, by rw [hm]⟩))
      · exact .inr (.inr (.inr ⟨t, l, rest, h5, h1, rfl,
          NDPOptions.getAllBody_other host t l rest options h5 h1⟩))

/-- The walk continues behind a decoded MTU option with the MTU stored. -/
theorem NDPOptions.getAllLoop_mtu (host : ByteOrder) (l m0 m1 m2 m3 : Byte) (rest : Cursor)
    (options : NDPOptions) :
    NDPOptions.getAllLoop host (5 :: l :: 0 :: 0 :: m0 :: m1 :: m2 :: m3 :: rest) options
      = NDPOptions.getAllLoop host rest
          { options with mtu := some (hostOrder32 host m0 m1 m2 m3) } := by
  rw [NDPOptions.getAllLoop_cons, NDPOptions.getAllBody_mtu, NDPOptions.getMtu_ok]

/-- The walk continues behind a decoded source link-layer option with the address stored. -/
theorem NDPOptions.getAllLoop_sourceLinkLayer (host : ByteOrder) (l : Byte) (mac : MacAddress)
    (rest : Cursor) (options : NDPOptions) :
    NDPOptions.getAllLoop host (1 :: l :: (mac.bytes ++ rest)) options
      = NDPOptions.getAllLoop host rest { options with sourceLinkLayerAddress := some mac } := by
  rw [NDPOptions.getAllLoop_cons, NDPOptions.getAllBody_sourceLinkLayer]
  rfl

/-- The walk continues right behind the header of an option of any other type. -/
theorem NDPOptions.getAllLoop_other (host : ByteOrder) (t l : Byte) (rest : Cursor)
    (options : NDPOptions) (h5 : t ≠ 5) (h1 : t ≠ 1) :
    NDPOptions.getAllLoop host (t :: l :: rest) options
      = NDPOptions.getAllLoop host rest options := by
  rw [NDPOptions.getAllLoop_cons, NDPOptions.getAllBody_other host t l rest options h5 h1]

/-- The walk ends on the first exception of the body, keeping the options stored so far. -/
theorem NDPOptions.getAllLoop_error (host : ByteOrder) (cursor : Cursor) (options : NDPOptions)
    (e : Exn) (hne : cursor ≠ []) (hb : NDPOptions.getAllBody host cursor options = .error e) :
    NDPOptions.getAllLoop host cursor options = (options, some e) := by
  match cursor, hne with
  | b :: rest, _ => rw [NDPOptions.getAllLoop_cons, hb]

/-- Whatever ends the walk early is a `HdrParseError`. -/
theorem NDPOptions.getAllLoop_exn (host : ByteOrder) :
    ∀ (n : Nat) (cursor : Cursor) (options : NDPOptions), cursor.length ≤ n →
      ∀ e, (NDPOptions.getAllLoop host cursor options).2 = some e →
        ∃ msg, e = .hdrParseError msg := by
  intro n
  induction n with
  | zero =>
    intro cursor options hlen e he
    have hnil : cursor = [] := List.length_eq_zero.mp (by omega)
    subst hnil
    rw [NDPOptions.getAllLoop_nil] at he
    simp at he
  | succ n ih =>
    intro cursor options hlen e he
    match cursor with
    | [] =>
      rw [NDPOptions.getAllLoop_nil] at he
      simp at he
    | b :: tl =>
      rcases NDPOptions.getAllBody_cases host (b :: tl) options with
        ⟨msg, hb⟩ | ⟨l, m0, m1, m2, m3, rest, hc, _⟩ | ⟨l, mac, rest, hc, _⟩ |
        ⟨t, l, rest, h5, h1, hc, _⟩
      · rw [NDPOptions.getAllLoop_error host _ _ _ (by simp) hb] at he
        simp only [Option.some.injEq] at he
        exact ⟨msg, he.symm⟩
      · rw [hc, NDPOptions.getAllLoop_mtu] at he
        refine ih rest _ ?_ e he
        have := congrArg List.length hc
        simp only [List.length_cons] at this hlen
        omega
      · rw [hc, NDPOptions.getAllLoop_sourceLinkLayer] at he
        refine ih rest _ ?_ e he
        have := congrArg List.length hc
        simp only [List.length_cons, List.length_append] at this hlen
        omega
      · rw [hc, NDPOptions.getAllLoop_other host t l rest options h5 h1] at he
        refine ih rest _ ?_ e he
        have := congrArg List.length hc
        simp only [List.length_cons] at this hlen
        omega

/-- What getAll returns is the options that the walk has stored when it ends. -/
theorem NDPOptions.getAll_eq (host : ByteOrder) (cursor : Cursor) :
    NDPOptions.getAll host cursor
      = .ok (NDPOptions.getAllLoop host cursor ⟨none, none⟩).1 := by
  unfold NDPOptions.getAll
  generalize hr : NDPOptions.getAllLoop host cursor ⟨none, none⟩ = r
  obtain ⟨o, x⟩ := r
  match x with
  | none => rfl
  | some e =>
    obtain ⟨msg, rfl⟩ := NDPOptions.getAllLoop_exn host cursor.length cursor ⟨none, none⟩
      le_rfl e (by rw [hr])
    rfl

/-- The loop body does not look at the length octet of the option header. -/
theorem NDPOptions.getAllBody_length_irrelevant (host : ByteOrder) (t l1 l2 : Byte)
    (rest : Cursor) (options : NDPOptions) :
    NDPOptions.getAllBody host (t :: l1 :: rest) options
      = NDPOptions.getAllBody host (t :: l2 :: rest) options := by
  by_cases h5 : t = 5
  · subst h5
    rw [NDPOptions.getAllBody_mtu, NDPOptions.getAllBody_mtu]
  · by_cases h1 : t = 1
    · subst h1
      rw [NDPOptions.getAllBody_sourceLinkLayer, NDPOptions.getAllBody_sourceLinkLayer]
    · rw [NDPOptions.getAllBody_other host t l1 rest options h5 h1,
        NDPOptions.getAllBody_other host t l2 rest options h5 h1]

/-- C11: getAll is total. For every octet sequence, whatever it holds, getAll returns an
NDPOptions value and lets no exception out, and on the empty sequence it returns the
empty options. Every pass of the loop either finds the cursor empty and ends the walk,
or ends the walk on the exception of the body with the options stored so far, or goes
on with a cursor that holds strictly fewer octets. -/
theorem getAll_total (host : ByteOrder) (cursor : Cursor) (options : NDPOptions) :
    (∃ result, NDPOptions.getAll host cursor = .ok result) ∧
    NDPOptions.getAll host [] = .ok ⟨none, none⟩ ∧
    ((cursor = [] ∧ NDPOptions.getAllLoop host cursor options = (options, none)) ∨
      (∃ msg, NDPOptions.getAllBody host cursor options = .error (.hdrParseError msg) ∧
        NDPOptions.getAllLoop host cursor options = (options, some (.hdrParseError msg))) ∨
      (∃ options1 cursor1, NDPOptions.getAllBody host cursor options = .ok (options1, cursor1) ∧
        cursor1.length < cursor.length ∧
        NDPOptions.getAllLoop host cursor options
          = NDPOptions.getAllLoop host cursor1 options1)) := by
  refine ⟨⟨_, NDPOptions.getAll_eq host cursor⟩, ?_, ?_⟩
  · rw [NDPOptions.getAll_eq, NDPOptions.getAllLoop_nil]
  · match cursor with
    | [] => exact .inl ⟨rfl, NDPOptions.getAllLoop_nil host options⟩
    | b :: tl =>
      rcases NDPOptions.getAllBody_cases host (b :: tl) options with
        ⟨msg, hb⟩ | ⟨l, m0, m1, m2, m3, rest, hc, hb⟩ | ⟨l, mac, rest, hc, hb⟩ |
        ⟨t, l, rest, h5, h1, hc, hb⟩
      · exact .inr (.inl ⟨msg, hb, NDPOptions.getAllLoop_error host _ _ _ (by simp) hb⟩)
      · refine .inr (.inr ⟨_, rest, hb, ?_, ?_⟩)
        · rw [hc]
          simp only [List.length_cons]
          omega
        · rw [NDPOptions.getAllLoop_cons, hb]
      · refine .inr (.inr ⟨_, rest, hb, ?_, ?_⟩)
        · rw [hc]
          simp only [List.length_cons, List.length_append]
          omega
        · rw [NDPOptions.getAllLoop_cons, hb]
      · refine .inr (.inr ⟨_, rest, hb, ?_, ?_⟩)
        · rw [hc]
          simp only [List.length_cons]
          omega
        · rw [NDPOptions.getAllLoop_cons, hb]

/-- C18: an option whose type is neither MTU (5) nor source link-layer address (1), so
the ignored types 2, 3, 4 and every unrecognized code, costs the walker its two header
octets only. The pass of the loop over t, l, rest stores nothing and leaves the cursor
on rest, two octets further on and in front of the value of the option; the walk goes
on from there, so getAll on t, l, rest returns exactly what getAll returns on rest; and
value octets that spell an MTU option are decoded as one. -/
theorem getAll_ignored_option (host : ByteOrder) (t l : Byte) (rest : Cursor)
    (options : NDPOptions)
    (h5 : t ≠ ICMPV6_NDP_OPTION_MTU) (h1 : t ≠ ICMPV6_NDP_OPTION_SOURCE_LINK_LAYER_ADDRESS) :
    NDPOptions.getAllBody host (t :: l :: rest) options = .ok (options, rest) ∧
    rest.length + 2 = (t :: l :: rest).length ∧
    NDPOptions.getAllLoop host (t :: l :: rest) options
      = NDPOptions.getAllLoop host rest options ∧
    NDPOptions.getAll host (t :: l :: rest) = NDPOptions.getAll host rest ∧
    (∀ l2 m0 m1 m2 m3 : Byte,
      NDPOptions.getAll host (t :: l :: [5, l2, 0, 0, m0, m1, m2, m3])
        = .ok ⟨some (hostOrder32 host m0 m1 m2 m3), none⟩) := by
  refine ⟨NDPOptions.getAllBody_other host t l rest options h5 h1, rfl,
    NDPOptions.getAllLoop_other host t l rest options h5 h1, ?_, ?_⟩
  · rw [NDPOptions.getAll_eq, NDPOptions.getAll_eq,
      NDPOptions.getAllLoop_other host t l rest _ h5 h1]
  · intro l2 m0 m1 m2 m3
    rw [NDPOptions.getAll_eq, NDPOptions.getAllLoop_other host t l _ _ h5 h1,
      NDPOptions.getAllLoop_mtu, NDPOptions.getAllLoop_nil]

/-- Witness of C18: a prefix information option (type 3) of declared length 4 whose
value starts with the octets 05 01 00 00 00 00 05 DC: the pass over its header leaves
the cursor on them, and they are read as an MTU option, which yields the MTU 1500 on a
big-endian host. -/
theorem getAll_ignored_option_witness :
    (3 : Byte) ≠ ICMPV6_NDP_OPTION_MTU ∧
    (3 : Byte) ≠ ICMPV6_NDP_OPTION_SOURCE_LINK_LAYER_ADDRESS ∧
    NDPOptions.getAllBody .bigEndian (3 :: 4 :: [5, 1, 0, 0, 0, 0, 5, 220]) ⟨none, none⟩
      = .ok (⟨none, none⟩, [5, 1, 0, 0, 0, 0, 5, 220]) ∧
    NDPOptions.getAll .bigEndian (3 :: 4 :: [5, 1, 0, 0, 0, 0, 5, 220])
      = NDPOptions.getAll .bigEndian [5, 1, 0, 0, 0, 0, 5, 220] ∧
    NDPOptions.getAll .bigEndian (3 :: 4 :: [5, 1, 0, 0, 0, 0, 5, 220])
      = .ok ⟨some 1500, none⟩ :=
  ⟨by decide, by decide,
    (getAll_ignored_option .bigEndian 3 4 [5, 1, 0, 0, 0, 0, 5, 220] ⟨none, none⟩
      (by decide) (by decide)).1,
    (getAll_ignored_option .bigEndian 3 4 [5, 1, 0, 0, 0, 0, 5, 220] ⟨none, none⟩
      (by decide) (by decide)).2.2.2.1,
    (getAll_ignored_option .bigEndian 3 4 [5, 1, 0, 0, 0, 0, 5, 220] ⟨none, none⟩
      (by decide) (by decide)).2.2.2.2 1 0 0 5 220⟩

/-- C19: the walker never uses the declared length of an option. Two inputs that differ
in the length octet of the first option only give the same result; and a pass of the
loop that goes on has consumed the two header octets plus a number of value octets
fixed by the type alone, six for MTU and for source link-layer address and none
otherwise, whatever the length octet says. -/
theorem getAll_ignores_length (host : ByteOrder) (t l1 l2 : Byte) (rest : Cursor)
    (options : NDPOptions) :
    NDPOptions.getAll host (t :: l1 :: rest) = NDPOptions.getAll host (t :: l2 :: rest) ∧
    NDPOptions.getAllBody host (t :: l1 :: rest) options
      = NDPOptions.getAllBody host (t :: l2 :: rest) options ∧
    ((∃ msg, NDPOptions.getAllBody host (t :: l1 :: rest) options
        = .error (.hdrParseError msg)) ∨
      (∃ options1 cursor1,
        NDPOptions.getAllBody host (t :: l1 :: rest) options = .ok (options1, cursor1) ∧
        cursor1.length + (if t = ICMPV6_NDP_OPTION_MTU
            ∨ t = ICMPV6_NDP_OPTION_SOURCE_LINK_LAYER_ADDRESS then 6 else 0)
          = rest.length)) := by
  refine ⟨?_, NDPOptions.getAllBody_length_irrelevant host t l1 l2 rest options, ?_⟩
  · rw [NDPOptions.getAll_eq, NDPOptions.getAll_eq, NDPOptions.getAllLoop_cons,
      NDPOptions.getAllLoop_cons, NDPOptions.getAllBody_length_irrelevant host t l1 l2]
  · rcases NDPOptions.getAllBody_cases host (t :: l1 :: rest) options with
      ⟨msg, hb⟩ | ⟨l, m0, m1, m2, m3, tl, hc, hb⟩ | ⟨l, mac, tl, hc, hb⟩ |
      ⟨t1, l, tl, h5, h1, hc, hb⟩
    · exact .inl ⟨msg, hb⟩
    · refine .inr ⟨_, tl, hb, ?_⟩
      simp only [List.cons.injEq] at hc
      obtain ⟨rfl, -, rfl⟩ := hc
      simp [ICMPV6_NDP_OPTION_MTU]
    · refine .inr ⟨_, tl, hb, ?_⟩
      simp only [List.cons.injEq] at hc
      obtain ⟨rfl, -, rfl⟩ := hc
      simp [ICMPV6_NDP_OPTION_SOURCE_LINK_LAYER_ADDRESS, MacAddress.bytes]
    · refine .inr ⟨_, tl, hb, ?_⟩
      simp only [List.cons.injEq] at hc
      obtain ⟨rfl, -, rfl⟩ := hc
      simp [ICMPV6_NDP_OPTION_MTU, ICMPV6_NDP_OPTION_SOURCE_LINK_LAYER_ADDRESS, h5, h1]

/-- The walk keeps every stored value traced to the input it walks over. -/
theorem NDPOptions.getAllLoop_tracedTo (host : ByteOrder) (input : List Byte) :
    ∀ (n : Nat) (cursor : Cursor) (options : NDPOptions) (pre : List Byte),
      cursor.length ≤ n → input = pre ++ cursor → NDPOptions.TracedTo host input options →
      NDPOptions.TracedTo host input (NDPOptions.getAllLoop host cursor options).1 := by
  intro n
  induction n with
  | zero =>
    intro cursor options pre hlen _ ht
    have hnil : cursor = [] := List.length_eq_zero.mp (by omega)
    subst hnil
    rw [NDPOptions.getAllLoop_nil]
    exact ht
  | succ n ih =>
    intro cursor options pre hlen hin ht
    match cursor with
    | [] =>
      rw [NDPOptions.getAllLoop_nil]
      exact ht
    | b :: tl =>
      rcases NDPOptions.getAllBody_cases host (b :: tl) options with
        ⟨msg, hb⟩ | ⟨l, m0, m1, m2, m3, rest, hc, _⟩ | ⟨l, mac, rest, hc, _⟩ |
        ⟨t, l, rest, h5, h1, hc, _⟩
      · rw [NDPOptions.getAllLoop_error host _ _ _ (by simp) hb]
        exact ht
      · rw [hc, NDPOptions.getAllLoop_mtu]
        have hlen2 : rest.length ≤ n := by
          have := congrArg List.length hc
          simp only [List.length_cons] at this hlen
          omega
        refine ih rest _ (pre ++ [5, l, 0, 0, m0, m1, m2, m3]) hlen2 ?_ ⟨?_, ?_⟩
        · rw [hin, hc]
          simp
        · intro m hm
          simp only [Option.some.injEq] at hm
          subst hm
          exact ⟨pre, l, m0, m1, m2, m3, rest, by rw [hin, hc]; rfl,
            NDPOptions.getMtu_ok host m0 m1 m2 m3 []⟩
        · exact ht.2
      · rw [hc, NDPOptions.getAllLoop_sourceLinkLayer]
        have hlen2 : rest.length ≤ n := by
          have := congrArg List.length hc
          simp only [List.length_cons, List.length_append] at this hlen
          omega
        refine ih rest _ (pre ++ 1 :: l :: mac.bytes) hlen2 ?_ ⟨ht.1, ?_⟩
        · rw [hin, hc]
          simp
        · intro a ha
          simp only [Option.some.injEq] at ha
          subst ha
          exact ⟨pre, l, rest, by rw [hin, hc]; rfl⟩
      · rw [hc, NDPOptions.getAllLoop_other host t l rest options h5 h1]
        have hlen2 : rest.length ≤ n := by
          have := congrArg List.length hc
          simp only [List.length_cons] at this hlen
          omega
        refine ih rest _ (pre ++ [t, l]) hlen2 ?_ ht
        rw [hin, hc]
        simp

/-- C20: extraction is sound with respect to the input octets. If getAll returns an MTU
m, the input holds at some offset eight contiguous octets whose first is the MTU type
code 5, whose third and fourth are zero and whose last four are the ones getMtu decodes
to m; if it returns a source link-layer address a, the input holds at some offset the
type code 1, one length octet and the six octets of a. Hence an input of fewer than
eight octets yields neither. -/
theorem getAll_sound (host : ByteOrder) (cursor : Cursor) (result : NDPOptions)
    (h : NDPOptions.getAll host cursor = .ok result) :
    (∀ m, result.mtu = some m →
      ∃ pre l m0 m1 m2 m3 post,
        cursor = pre ++ 5 :: l :: 0 :: 0 :: m0 :: m1 :: m2 :: m3 :: post ∧
        NDPOptions.getMtu host [0, 0, m0, m1, m2, m3] = .ok (m, [])) ∧
    (∀ a, result.sourceLinkLayerAddress = some a →
      ∃ pre l post, cursor = pre ++ 1 :: l :: (a.bytes ++ post)) ∧
    (cursor.length < 8 → result = ⟨none, none⟩) := by
  rw [NDPOptions.getAll_eq] at h
  simp only [Except.ok.injEq] at h
  have ht : NDPOptions.TracedTo host cursor result := by
    rw [← h]
    exact NDPOptions.getAllLoop_tracedTo host cursor cursor.length cursor ⟨none, none⟩ []
      le_rfl rfl ⟨fun m hm => by simp at hm, fun a ha => by simp at ha⟩
  refine ⟨ht.1, ht.2, ?_⟩
  intro hshort
  obtain ⟨mtu, mac⟩ := result
  have hmtu : mtu = none := by
    cases hm : mtu with
    | none => rfl
    | some m =>
      obtain ⟨pre, l, m0, m1, m2, m3, post, hc, _⟩ := ht.1 m hm
      have := congrArg List.length hc
      simp only [List.length_append, List.length_cons] at this
      omega
  have hmac : mac = none := by
    cases hm : mac with
    | none => rfl
    | some a =>
      obtain ⟨pre, l, post, hc⟩ := ht.2 a hm
      have := congrArg List.length hc
      simp only [List.length_append, List.length_cons, MacAddress.bytes] at this
      omega
  rw [hmtu, hmac]

/-- On a fragment that fails on its first option the loop body throws, whatever the
options stored so far. -/
theorem NDPOptions.getAllBody_of_fails (host : ByteOrder) (fragment : Cursor)
    (options : NDPOptions) (hf : FailsOnFirstOption host fragment) :
    ∃ e, NDPOptions.getAllBody host fragment options = .error e := by
  rcases hf with ⟨e, he⟩ | ⟨l, c1, e, hh, he⟩ | ⟨l, c1, e, hh, he⟩
  · exact ⟨e, by simp only [NDPOptions.getAllBody, he, bind, Except.bind]⟩
  · refine ⟨e, ?_⟩
    simp only [NDPOptions.getAllBody, hh, bind, Except.bind, if_true, he]
  · refine ⟨e, ?_⟩
    have h15 : ¬ (ICMPV6_NDP_OPTION_SOURCE_LINK_LAYER_ADDRESS = ICMPV6_NDP_OPTION_MTU) := by
      decide
    simp only [NDPOptions.getAllBody, hh, bind, Except.bind, h15, if_true, if_false, he]

/-- The walk over a fragment that fails on its first option stores nothing more. -/
theorem NDPOptions.getAllLoop_of_fails (host : ByteOrder) (fragment : Cursor)
    (options : NDPOptions) (hf : FailsOnFirstOption host fragment) :
    (NDPOptions.getAllLoop host fragment options).1 = options := by
  match fragment, hf with
  | [], _ => rw [NDPOptions.getAllLoop_nil]
  | b :: tl, hf =>
    obtain ⟨e, he⟩ := NDPOptions.getAllBody_of_fails host (b :: tl) options hf
    rw [NDPOptions.getAllLoop_error host _ _ e (by simp) he]

/-- The walk over a chain of well-formed options followed by anything: it goes on behind
the chain with the last MTU and the last address of the chain stored over the earlier
values. -/
theorem NDPOptions.getAllLoop_chain (host : ByteOrder) (tail : Cursor) :
    ∀ (chain : List WellFormedOption) (options : NDPOptions),
      NDPOptions.getAllLoop host (encodeChain chain ++ tail) options
        = NDPOptions.getAllLoop host tail
            ⟨(lastDecodedMtu host chain).orElse (fun _ => options.mtu),
              (lastSourceLinkLayerAddress chain).orElse
                (fun _ => options.sourceLinkLayerAddress)⟩ := by
  intro chain
  induction chain with
  | nil =>
    intro options
    simp only [encodeChain, lastDecodedMtu, lastSourceLinkLayerAddress, List.nil_append]
    rfl
  | cons option chain ih =>
    intro options
    cases option with
    | mtu m0 m1 m2 m3 =>
      simp only [encodeChain, WellFormedOption.encode, List.cons_append, List.nil_append]
      rw [NDPOptions.getAllLoop_mtu, ih]
      simp only [lastDecodedMtu, lastSourceLinkLayerAddress]
      cases lastDecodedMtu host chain <;> cases lastSourceLinkLayerAddress chain <;> rfl
    | sourceLinkLayer mac =>
      simp only [encodeChain, WellFormedOption.encode, List.cons_append, List.append_assoc]
      rw [NDPOptions.getAllLoop_sourceLinkLayer, ih]
      simp only [lastDecodedMtu, lastSourceLinkLayerAddress]
      cases lastDecodedMtu host chain <;> cases lastSourceLinkLayerAddress chain <;> rfl

/-- On a chain of well-formed options getAll returns the last MTU and the last address
of the chain, and what follows the chain is walked with those values stored. -/
theorem NDPOptions.getAll_chain (host : ByteOrder) (chain : List WellFormedOption)
    (tail : Cursor) :
    NDPOptions.getAll host (encodeChain chain ++ tail)
      = .ok (NDPOptions.getAllLoop host tail
          ⟨lastDecodedMtu host chain, lastSourceLinkLayerAddress chain⟩).1 := by
  rw [NDPOptions.getAll_eq, NDPOptions.getAllLoop_chain]
  cases lastDecodedMtu host chain <;> cases lastSourceLinkLayerAddress chain <;> rfl

/-- The big-endian octets of a 32-bit value read back most significant first give the value. -/
theorem hostOrder32_bigEndian_mtuOption (a : Word32) :
    hostOrder32 .bigEndian ⟨a.val / 16777216, by omega⟩ ⟨a.val / 65536 % 256, by omega⟩
      ⟨a.val / 256 % 256, by omega⟩ ⟨a.val % 256, by omega⟩ = a := by
  apply Fin.ext
  simp only [hostOrder32]
  omega

/-- A fragment on which the option header or the value decoder fails changes nothing
behind a chain of well-formed options: getAll on the chain followed by the fragment
returns what getAll returns on the chain alone, the MTU that the host-order decoder
reads from the last MTU option and the address of the last source link-layer address
option. A lone octet, an MTU or source link-layer address option cut short and an MTU
option with a non-zero reserved field are such fragments. -/
theorem NDPOptions.getAll_chain_fragment (host : ByteOrder) (chain : List WellFormedOption) :
    (∀ fragment, FailsOnFirstOption host fragment →
      NDPOptions.getAll host (encodeChain chain ++ fragment)
        = NDPOptions.getAll host (encodeChain chain)) ∧
    NDPOptions.getAll host (encodeChain chain)
      = .ok ⟨lastDecodedMtu host chain, lastSourceLinkLayerAddress chain⟩ ∧
    (∀ b, FailsOnFirstOption host [b]) ∧
    (∀ l value, value.length < 6 →
      FailsOnFirstOption host (ICMPV6_NDP_OPTION_MTU :: l :: value)) ∧
    (∀ l value, value.length < 6 →
      FailsOnFirstOption host (ICMPV6_NDP_OPTION_SOURCE_LINK_LAYER_ADDRESS :: l :: value)) ∧
    (∀ l r0 r1 rest, ¬ (r0 = 0 ∧ r1 = 0) →
      FailsOnFirstOption host (ICMPV6_NDP_OPTION_MTU :: l :: r0 :: r1 :: rest)) := by
  have halone : NDPOptions.getAll host (encodeChain chain)
      = .ok ⟨lastDecodedMtu host chain, lastSourceLinkLayerAddress chain⟩ := by
    have h := NDPOptions.getAll_chain host chain []
    rw [List.append_nil, NDPOptions.getAllLoop_nil] at h
    exact h
  refine ⟨?_, halone, ?_, ?_, ?_, ?_⟩
  · intro fragment hf
    rw [halone, NDPOptions.getAll_chain, NDPOptions.getAllLoop_of_fails host fragment _ hf]
  · intro b
    exact .inl ⟨_, rfl⟩
  · intro l value hlen
    rcases NDPOptions.getMtu_cases host value with ⟨msg, hm⟩ | ⟨m0, m1, m2, m3, rest, hc, _⟩
    · exact .inr (.inl ⟨l, value, _, rfl, hm⟩)
    · rw [hc] at hlen
      simp only [List.length_cons] at hlen
      omega
  · intro l value hlen
    rcases NDPOptions.getSourceLinkLayerAddress_cases value with ⟨_, hm⟩ | ⟨mac, rest, hc, _⟩
    · exact .inr (.inr ⟨l, value, _, rfl, hm⟩)
    · rw [hc] at hlen
      simp only [List.length_append, MacAddress.bytes, List.length_cons] at hlen
      omega
  · intro l r0 r1 rest hz
    exact .inr (.inl ⟨l, r0 :: r1 :: rest, _, rfl, NDPOptions.getMtu_reserved host r0 r1 rest hz⟩)

/-- On a big-endian host what the walker stores as MTU is the MTU value of the option. -/
theorem lastDecodedMtu_bigEndian (chain : List WellFormedOption) :
    lastDecodedMtu .bigEndian chain = lastMtu chain := by
  induction chain with
  | nil => rfl
  | cons option chain ih =>
    cases option with
    | mtu m0 m1 m2 m3 =>
      simp only [lastDecodedMtu, lastMtu, ih]
      rfl
    | sourceLinkLayer mac =>
      simp only [lastDecodedMtu, lastMtu, ih]

/-- C12: the options parsed before a corrupt trailing fragment do survive it, but on a
little-endian host the surviving MTU is not the value of the MTU option. On the chain
Mtu(1500), source link-layer address aa:bb:cc:dd:ee:ff, followed by the cut-short
fragment 05 01 00, getAll on a little-endian host returns the address and the MTU
3691315200 (0xDC050000), while the last MTU option of the chain carries 1500. The
result is the one of the chain alone, as it is behind every chain for a lone octet, a
cut-short MTU option and a non-zero reserved field; and on a big-endian host getAll
returns the MTU value and the address of the last such options of every chain. -/
theorem getAll_partial_results_host_order :
    NDPOptions.getAll .littleEndian
        (encodeChain [mtuOption 1500, .sourceLinkLayer ⟨170, 187, 204, 221, 238, 255⟩]
          ++ [5, 1, 0])
      = .ok ⟨some 3691315200, some ⟨170, 187, 204, 221, 238, 255⟩⟩ ∧
    lastMtu [mtuOption 1500, .sourceLinkLayer ⟨170, 187, 204, 221, 238, 255⟩] = some 1500 ∧
    lastSourceLinkLayerAddress
        [mtuOption 1500, .sourceLinkLayer ⟨170, 187, 204, 221, 238, 255⟩]
      = some ⟨170, 187, 204, 221, 238, 255⟩ ∧
    NDPOptions.getAll .littleEndian
        (encodeChain [mtuOption 1500, .sourceLinkLayer ⟨170, 187, 204, 221, 238, 255⟩]
          ++ [5, 1, 0])
      = NDPOptions.getAll .littleEndian
        (encodeChain [mtuOption 1500, .sourceLinkLayer ⟨170, 187, 204, 221, 238, 255⟩]) ∧
    (∀ (host : ByteOrder) (chain : List WellFormedOption) (b : Byte),
      NDPOptions.getAll host (encodeChain chain ++ [b])
        = NDPOptions.getAll host (encodeChain chain)) ∧
    (∀ (host : ByteOrder) (chain : List WellFormedOption) (l v0 v1 v2 : Byte),
      NDPOptions.getAll host (encodeChain chain ++ [5, l, v0, v1, v2])
        = NDPOptions.getAll host (encodeChain chain)) ∧
    (∀ (host : ByteOrder) (chain : List WellFormedOption) (l : Byte) (rest : Cursor),
      NDPOptions.getAll host (encodeChain chain ++ 5 :: l :: 0 :: 1 :: rest)
        = NDPOptions.getAll host (encodeChain chain)) ∧
    (∀ chain : List WellFormedOption,
      NDPOptions.getAll .bigEndian (encodeChain chain)
        = .ok ⟨lastMtu chain, lastSourceLinkLayerAddress chain⟩) := by
  have hshort : FailsOnFirstOption .littleEndian [5, 1, 0] :=
    (NDPOptions.getAll_chain_fragment .littleEndian []).2.2.2.1 1 [0] (by decide)
  refine ⟨?_, by decide, by decide, ?_, ?_, ?_, ?_, ?_⟩
  · rw [(NDPOptions.getAll_chain_fragment .littleEndian _).1 _ hshort,
      (NDPOptions.getAll_chain_fragment .littleEndian _).2.1]
    decide
  · exact (NDPOptions.getAll_chain_fragment .littleEndian _).1 _ hshort
  · intro host chain b
    exact (NDPOptions.getAll_chain_fragment host chain).1 _
      ((NDPOptions.getAll_chain_fragment host chain).2.2.1 b)
  · intro host chain l v0 v1 v2
    exact (NDPOptions.getAll_chain_fragment host chain).1 _
      ((NDPOptions.getAll_chain_fragment host chain).2.2.2.1 l [v0, v1, v2] (by simp))
  · intro host chain l rest
    exact (NDPOptions.getAll_chain_fragment host chain).1 _
      ((NDPOptions.getAll_chain_fragment host chain).2.2.2.2.2 l 0 1 rest (by decide))
  · intro chain
    rw [(NDPOptions.getAll_chain_fragment .bigEndian chain).2.1, lastDecodedMtu_bigEndian]

/-- C13: last-one-wins holds for the order of the options, but not for the MTU value on
a little-endian host. For two MTU options the walker returns what it decodes from the
later one, and for two source link-layer address options the later address. Decoding is
in host byte order: on a big-endian host the chain Mtu(a) Mtu(b) yields b, on a
little-endian host the chain Mtu(1500) Mtu(9000) yields 673382400 (0x28230000), not 9000. -/
theorem getAll_last_one_wins_host_order :
    NDPOptions.getAll .littleEndian (encodeChain [mtuOption 1500, mtuOption 9000])
      = .ok ⟨some 673382400, none⟩ ∧
    (∀ a b : Word32, NDPOptions.getAll .bigEndian (encodeChain [mtuOption a, mtuOption b])
      = .ok ⟨some b, none⟩) ∧
    (∀ (host : ByteOrder) (a b : Word32),
      NDPOptions.getAll host (encodeChain [mtuOption a, mtuOption b])
        = NDPOptions.getAll host (encodeChain [mtuOption b])) ∧
    (∀ (host : ByteOrder) (x y : MacAddress),
      NDPOptions.getAll host (encodeChain [.sourceLinkLayer x, .sourceLinkLayer y])
        = .ok ⟨none, some y⟩) := by
  have hchain : ∀ (host : ByteOrder) (chain : List WellFormedOption),
      NDPOptions.getAll host (encodeChain chain)
        = .ok ⟨lastDecodedMtu host chain, lastSourceLinkLayerAddress chain⟩ := by
    intro host chain
    have h := NDPOptions.getAll_chain host chain []
    rw [List.append_nil, NDPOptions.getAllLoop_nil] at h
    exact h
  refine ⟨?_, ?_, ?_, ?_⟩
  · rw [hchain]
    decide
  · intro a b
    rw [hchain]
    simp only [mtuOption, lastDecodedMtu, lastSourceLinkLayerAddress, hostOrder32_bigEndian_mtuOption]
  · intro host a b
    rw [hchain, hchain]
    rfl
  · intro host x y
    rw [hchain]
    rfl

/-- A push succeeds exactly when the buffer has room for the octets, which it appends. -/
theorem RWPrivateCursor.push_eq_ok (bytes : List Byte) (c c1 : RWPrivateCursor) :
    RWPrivateCursor.push bytes c = .ok c1 ↔
      bytes.length ≤ c.room.length ∧ c1 = ⟨c.written ++ bytes, c.room.drop bytes.length⟩ := by
  unfold RWPrivateCursor.push
  split
  · rename_i h
    simp only [Except.ok.injEq, h, true_and]
    exact eq_comm
  · rename_i h
    simp [h]

/-- A big-endian 16-bit write succeeds exactly when two octets of room are left. -/
theorem RWPrivateCursor.writeBE16_eq_ok (v : Word16) (c c1 : RWPrivateCursor) :
    RWPrivateCursor.writeBE16 v c = .ok c1 ↔
      2 ≤ c.room.length ∧
        c1 = ⟨c.written ++ [⟨v.val / 256, by omega⟩, ⟨v.val % 256, by omega⟩],
          c.room.drop 2⟩ := by
  obtain ⟨written, room⟩ := c
  rcases room with _ | ⟨a, _ | ⟨b, tl⟩⟩ <;>
    simp [RWPrivateCursor.writeBE16, eq_comm]

/-- A sequence of two throwing steps succeeds exactly when both steps do. -/
theorem bind_eq_ok_iff {α β : Type} (x : Except Exn α) (f : α → Except Exn β) (b : β) :
    (x >>= f) = .ok b ↔ ∃ a, x = .ok a ∧ f a = .ok b := by
  cases x with
  | error e => simp [bind, Except.bind]
  | ok a => simp [bind, Except.bind]

/-- The Ethernet part succeeds exactly when 18 octets of room are left, and then it has
appended its 18 octets. -/
theorem ICMPHdr.serializeEthPart_eq_ok (cursor c1 : RWPrivateCursor) (dstMac srcMac : MacAddress)
    (vlan ethertype : Word16) :
    ICMPHdr.serializeEthPart cursor dstMac srcMac vlan ethertype = .ok c1 ↔
      18 ≤ cursor.room.length ∧
        c1 = ⟨cursor.written ++ ethPartOctets dstMac srcMac vlan ethertype,
          cursor.room.drop 18⟩ := by
  simp only [ICMPHdr.serializeEthPart, bind_eq_ok_iff, RWPrivateCursor.push_eq_ok,
    RWPrivateCursor.writeBE16_eq_ok]
  constructor
  · rintro ⟨a1, ⟨h1, rfl⟩, a2, ⟨h2, rfl⟩, a3, ⟨h3, rfl⟩, a4, ⟨h4, rfl⟩, h5, rfl⟩
    simp only [MacAddress.bytes, List.length_cons, List.length_nil, List.length_drop] at *
    refine ⟨by omega, ?_⟩
    simp [ethPartOctets, MacAddress.bytes, ETHERTYPE_VLAN, List.drop_drop]
    decide
  · rintro ⟨h, rfl⟩
    refine ⟨_, ⟨?_, rfl⟩, _, ⟨?_, rfl⟩, _, ⟨?_, rfl⟩, _, ⟨?_, rfl⟩, ?_, ?_⟩
    all_goals simp only [MacAddress.bytes, List.length_cons, List.length_nil, List.length_drop]
    any_goals omega
    simp [ethPartOctets, MacAddress.bytes, ETHERTYPE_VLAN, List.drop_drop]
    decide

/-- With 18 octets of room the Ethernet part appends its 18 octets. -/
theorem ICMPHdr.serializeEthPart_ok (cursor : RWPrivateCursor) (dstMac srcMac : MacAddress)
    (vlan ethertype : Word16) (h18 : 18 ≤ cursor.room.length) :
    ICMPHdr.serializeEthPart cursor dstMac srcMac vlan ethertype
      = .ok ⟨cursor.written ++ ethPartOctets dstMac srcMac vlan ethertype,
          cursor.room.drop 18⟩ :=
  (ICMPHdr.serializeEthPart_eq_ok cursor _ dstMac srcMac vlan ethertype).2 ⟨h18, rfl⟩

/-- Behind the Ethernet part, a push of the IP header octets that fit appends them. -/
theorem RWPrivateCursor.push_after_eth (cursor : RWPrivateCursor) (eth octets : List Byte)
    (hroom : 18 + octets.length ≤ cursor.room.length) :
    RWPrivateCursor.push octets ⟨cursor.written ++ eth, cursor.room.drop 18⟩
      = .ok ⟨cursor.written ++ eth ++ octets, cursor.room.drop (18 + octets.length)⟩ := by
  have hle : octets.length ≤ (cursor.room.drop 18).length := by
    rw [List.length_drop]
    omega
  simp only [RWPrivateCursor.push, hle, if_true, List.drop_drop, Nat.add_comm]

/-- The IPv6 helper returns, having appended the 18 octets and the IP header, when the
buffer has room for them and the checks pass or are compiled out. -/
theorem ICMPHdr.serializePktHdrV6_returned (dchecks : Bool) (cursor : RWPrivateCursor)
    (dstMac srcMac : MacAddress) (vlan : Word16) (ipv6 : IPv6Hdr) (ipv6Octets : List Byte)
    (payloadLength : Word32) (hroom : 18 + ipv6Octets.length ≤ cursor.room.length)
    (hchecks : dchecks = true →
      ipv6.payloadLength.val = (ICMPHdr.SIZE + payloadLength.val) % 2 ^ 32 ∧
        ipv6.nextHeader = IP_PROTO_IPV6_ICMP) :
    ICMPHdr.serializePktHdrV6 dchecks cursor dstMac srcMac vlan ipv6 ipv6Octets payloadLength
      = .returned ⟨cursor.written ++ ethPartOctets dstMac srcMac vlan ETHERTYPE_IPV6
          ++ ipv6Octets, cursor.room.drop (18 + ipv6Octets.length)⟩ := by
  have h1 : ¬ (dchecks = true
      ∧ ipv6.payloadLength.val ≠ (ICMPHdr.SIZE + payloadLength.val) % 2 ^ 32) :=
    fun h => h.2 (hchecks h.1).1
  have h2 : ¬ (dchecks = true ∧ ipv6.nextHeader ≠ IP_PROTO_IPV6_ICMP) :=
    fun h => h.2 (hchecks h.1).2
  simp only [ICMPHdr.serializePktHdrV6,
    ICMPHdr.serializeEthPart_ok cursor dstMac srcMac vlan ETHERTYPE_IPV6 (by omega), h1, h2,
    if_false, RWPrivateCursor.push_after_eth cursor _ ipv6Octets hroom]

/-- The IPv6 helper aborts, in a build with `DCHECK`s, when the Ethernet part fits and
a check fails. -/
theorem ICMPHdr.serializePktHdrV6_aborted (cursor : RWPrivateCursor)
    (dstMac srcMac : MacAddress) (vlan : Word16) (ipv6 : IPv6Hdr) (ipv6Octets : List Byte)
    (payloadLength : Word32) (h18 : 18 ≤ cursor.room.length)
    (hfail : ¬ (ipv6.payloadLength.val = (ICMPHdr.SIZE + payloadLength.val) % 2 ^ 32 ∧
        ipv6.nextHeader = IP_PROTO_IPV6_ICMP)) :
    ICMPHdr.serializePktHdrV6 true cursor dstMac srcMac vlan ipv6 ipv6Octets payloadLength
      = .aborted := by
  simp only [ICMPHdr.serializePktHdrV6,
    ICMPHdr.serializeEthPart_ok cursor dstMac srcMac vlan ETHERTYPE_IPV6 h18, true_and]
  by_cases hl : ipv6.payloadLength.val = (ICMPHdr.SIZE + payloadLength.val) % 2 ^ 32
  · have hn : ipv6.nextHeader ≠ IP_PROTO_IPV6_ICMP := fun h => hfail ⟨hl, h⟩
    rw [if_neg (not_not.mpr hl), if_pos hn]
  · rw [if_pos hl]

/-- The IPv4 helper returns, having appended the 18 octets and the IP header, when the
buffer has room for them and the protocol check passes or is compiled out. -/
theorem ICMPHdr.serializePktHdrV4_returned (dchecks : Bool) (cursor : RWPrivateCursor)
    (dstMac srcMac : MacAddress) (vlan : Word16) (ipv4 : IPv4Hdr) (ipv4Octets : List Byte)
    (hroom : 18 + ipv4Octets.length ≤ cursor.room.length)
    (hchecks : dchecks = true → ipv4.protocol = IP_PROTO_ICMP) :
    ICMPHdr.serializePktHdrV4 dchecks cursor dstMac srcMac vlan ipv4 ipv4Octets
      = .returned ⟨cursor.written ++ ethPartOctets dstMac srcMac vlan ETHERTYPE_IPV4
          ++ ipv4Octets, cursor.room.drop (18 + ipv4Octets.length)⟩ := by
  have h1 : ¬ (dchecks = true ∧ ipv4.protocol ≠ IP_PROTO_ICMP) := fun h => h.2 (hchecks h.1)
  simp only [ICMPHdr.serializePktHdrV4,
    ICMPHdr.serializeEthPart_ok cursor dstMac srcMac vlan ETHERTYPE_IPV4 (by omega), h1,
    if_false, RWPrivateCursor.push_after_eth cursor _ ipv4Octets hroom]

/-- The IPv4 helper aborts, in a build with `DCHECK`s, when the Ethernet part fits and
the protocol is not ICMP. -/
theorem ICMPHdr.serializePktHdrV4_aborted (cursor : RWPrivateCursor)
    (dstMac srcMac : MacAddress) (vlan : Word16) (ipv4 : IPv4Hdr) (ipv4Octets : List Byte)
    (h18 : 18 ≤ cursor.room.length) (hfail : ipv4.protocol ≠ IP_PROTO_ICMP) :
    ICMPHdr.serializePktHdrV4 true cursor dstMac srcMac vlan ipv4 ipv4Octets = .aborted := by
  simp [ICMPHdr.serializePktHdrV4,
    ICMPHdr.serializeEthPart_ok cursor dstMac srcMac vlan ETHERTYPE_IPV4 h18, hfail]

/-- C14: with the constants of the specification (minimum IPv4 header 20, ICMP header 4,
untagged Ethernet header 14, IPv6 header 40), for every payload length p whose sum fits
in 32 bits computeTotalLengthV4(p) is p + 20 + 4 + 14, in particular
computeTotalLengthV4(100) = 138, and computeTotalLengthV6(p) is p + 4 + 40 + the same
Ethernet header size. -/
theorem computeTotalLength_sum (payloadLength : Word32) :
    (payloadLength.val + 20 + 4 + 14 < 2 ^ 32 →
      ICMPHdr.computeTotalLengthV4 EthHdr.SIZE payloadLength
        = payloadLength.val + 20 + 4 + 14) ∧
    ICMPHdr.computeTotalLengthV4 EthHdr.SIZE 100 = 138 ∧
    (payloadLength.val + 4 + 40 + EthHdr.SIZE < 2 ^ 32 →
      ICMPHdr.computeTotalLengthV6 EthHdr.SIZE payloadLength
        = payloadLength.val + 4 + 40 + EthHdr.SIZE) := by
  refine ⟨?_, by decide, ?_⟩
  · intro h
    simp only [ICMPHdr.computeTotalLengthV4, IPv4Hdr.minSize, ICMPHdr.SIZE, EthHdr.SIZE]
    omega
  · intro h
    simp only [ICMPHdr.computeTotalLengthV6, IPv6Hdr.SIZE, ICMPHdr.SIZE, EthHdr.SIZE] at h ⊢
    omega

/-- Witness of C14 at the payload length 1000. -/
theorem computeTotalLength_sum_witness :
    ((1000 : Word32).val + 20 + 4 + 14 < 2 ^ 32 ∧
      ICMPHdr.computeTotalLengthV4 EthHdr.SIZE 1000 = (1000 : Word32).val + 20 + 4 + 14) ∧
    ((1000 : Word32).val + 4 + 40 + EthHdr.SIZE < 2 ^ 32 ∧
      ICMPHdr.computeTotalLengthV6 EthHdr.SIZE 1000
        = (1000 : Word32).val + 4 + 40 + EthHdr.SIZE) :=
  ⟨⟨by decide, (computeTotalLength_sum 1000).1 (by decide)⟩,
   ⟨by decide, (computeTotalLength_sum 1000).2.2 (by decide)⟩⟩

/-- Whatever the value of EthHdr::SIZE, computeTotalLength(p) less EthHdr::SIZE plus the
18 octets of the VLAN-tagged Ethernet part equals the number of octets serializePktHdr
writes (18 and the 40-octet IPv6 header, or 18 and a minimum-size 20-octet IPv4 header)
plus the ICMP header size 4 plus p; so the length agrees with the frame exactly when
EthHdr::SIZE is 18. -/
theorem ICMPHdr.computeTotalLength_frame_iff (ethHdrSize : Nat) (payloadLength : Word32) (dchecks : Bool)
    (cursor : RWPrivateCursor) (dstMac srcMac : MacAddress) (vlan : Word16) :
    (∀ (ipv6 : IPv6Hdr) (ipv6Octets : List Byte),
      ipv6Octets.length = IPv6Hdr.SIZE → 18 + ipv6Octets.length ≤ cursor.room.length →
      (dchecks = true →
        ipv6.payloadLength.val = (ICMPHdr.SIZE + payloadLength.val) % 2 ^ 32 ∧
          ipv6.nextHeader = IP_PROTO_IPV6_ICMP) →
      payloadLength.val + 44 + ethHdrSize < 2 ^ 32 →
      ∃ c, ICMPHdr.serializePktHdrV6 dchecks cursor dstMac srcMac vlan ipv6 ipv6Octets
          payloadLength = .returned c ∧
        ICMPHdr.computeTotalLengthV6 ethHdrSize payloadLength + 18
          = (c.written.length - cursor.written.length) + 4 + payloadLength.val + ethHdrSize ∧
        (ICMPHdr.computeTotalLengthV6 ethHdrSize payloadLength
            = (c.written.length - cursor.written.length) + 4 + payloadLength.val ↔
          ethHdrSize = 18)) ∧
    (∀ (ipv4 : IPv4Hdr) (ipv4Octets : List Byte),
      ipv4Octets.length = IPv4Hdr.minSize → 18 + ipv4Octets.length ≤ cursor.room.length →
      (dchecks = true → ipv4.protocol = IP_PROTO_ICMP) →
      payloadLength.val + 24 + ethHdrSize < 2 ^ 32 →
      ∃ c, ICMPHdr.serializePktHdrV4 dchecks cursor dstMac srcMac vlan ipv4 ipv4Octets
          = .returned c ∧
        ICMPHdr.computeTotalLengthV4 ethHdrSize payloadLength + 18
          = (c.written.length - cursor.written.length) + 4 + payloadLength.val + ethHdrSize ∧
        (ICMPHdr.computeTotalLengthV4 ethHdrSize payloadLength
            = (c.written.length - cursor.written.length) + 4 + payloadLength.val ↔
          ethHdrSize = 18)) := by
  have heth : ∀ ethertype, (ethPartOctets dstMac srcMac vlan ethertype).length = 18 := by
    intro ethertype
    simp [ethPartOctets, MacAddress.bytes]
  constructor
  · intro ipv6 ipv6Octets hlen hroom hchecks hfit
    refine ⟨_, ICMPHdr.serializePktHdrV6_returned dchecks cursor dstMac srcMac vlan ipv6
      ipv6Octets payloadLength hroom hchecks, ?_, ?_⟩ <;>
      simp only [List.length_append, heth, hlen, ICMPHdr.computeTotalLengthV6, IPv6Hdr.SIZE,
        ICMPHdr.SIZE] <;>
      omega
  · intro ipv4 ipv4Octets hlen hroom hchecks hfit
    refine ⟨_, ICMPHdr.serializePktHdrV4_returned dchecks cursor dstMac srcMac vlan ipv4
      ipv4Octets hroom hchecks, ?_, ?_⟩ <;>
      simp only [List.length_append, heth, hlen, ICMPHdr.computeTotalLengthV4, IPv4Hdr.minSize,
        ICMPHdr.SIZE] <;>
      omega

/-- C16: for every destination MAC d, source MAC s, VLAN id v and IP header that passes
the checks, and a buffer with room for the 18 octets and the IP header, serializePktHdr
appends, in this order and with nothing in between, the six octets of d, the six of s,
0x81 0x00, v as two big-endian octets, the ethertype (0x08 0x00 in the IPv4 overload,
0x86 0xDD in the IPv6 overload) and then the octets of the serialized IP header; the
first 18 octets are a function of d, s, v and the IP version alone. -/
theorem serializePktHdr_layout (dchecks : Bool) (cursor : RWPrivateCursor)
    (dstMac srcMac : MacAddress) (vlan : Word16) :
    (∀ (ipv4 : IPv4Hdr) (ipv4Octets : List Byte),
      18 + ipv4Octets.length ≤ cursor.room.length → ipv4.protocol = IP_PROTO_ICMP →
      ICMPHdr.serializePktHdrV4 dchecks cursor dstMac srcMac vlan ipv4 ipv4Octets
        = .returned ⟨cursor.written ++
            (dstMac.bytes ++ srcMac.bytes ++
              [0x81, 0x00, ⟨vlan.val / 256, by omega⟩, ⟨vlan.val % 256, by omega⟩, 0x08, 0x00])
            ++ ipv4Octets,
          cursor.room.drop (18 + ipv4Octets.length)⟩) ∧
    (∀ (ipv6 : IPv6Hdr) (ipv6Octets : List Byte) (payloadLength : Word32),
      18 + ipv6Octets.length ≤ cursor.room.length →
      ipv6.payloadLength.val = (ICMPHdr.SIZE + payloadLength.val) % 2 ^ 32 →
      ipv6.nextHeader = IP_PROTO_IPV6_ICMP →
      ICMPHdr.serializePktHdrV6 dchecks cursor dstMac srcMac vlan ipv6 ipv6Octets payloadLength
        = .returned ⟨cursor.written ++
            (dstMac.bytes ++ srcMac.bytes ++
              [0x81, 0x00, ⟨vlan.val / 256, by omega⟩, ⟨vlan.val % 256, by omega⟩, 0x86, 0xDD])
            ++ ipv6Octets,
          cursor.room.drop (18 + ipv6Octets.length)⟩) := by
  constructor
  · intro ipv4 ipv4Octets hroom hproto
    rw [ICMPHdr.serializePktHdrV4_returned dchecks cursor dstMac srcMac vlan ipv4 ipv4Octets
      hroom (fun _ => hproto)]
    rfl
  · intro ipv6 ipv6Octets payloadLength hroom hlen hnext
    rw [ICMPHdr.serializePktHdrV6_returned dchecks cursor dstMac srcMac vlan ipv6 ipv6Octets
      payloadLength hroom (fun _ => ⟨hlen, hnext⟩)]
    rfl

/-- Witness of C16: both helpers on a fresh buffer of 20 octets, VLAN 100, with a
two-octet stand-in for the IP header. -/
theorem serializePktHdr_layout_witness :
    ICMPHdr.serializePktHdrV4 true ⟨[], List.replicate 20 0⟩ ⟨1, 2, 3, 4, 5, 6⟩
        ⟨7, 8, 9, 10, 11, 12⟩ 100 ⟨1, 104⟩ [69, 0]
      = .returned ⟨[] ++
          ((⟨1, 2, 3, 4, 5, 6⟩ : MacAddress).bytes ++ (⟨7, 8, 9, 10, 11, 12⟩ : MacAddress).bytes
            ++ [0x81, 0x00, ⟨(100 : Word16).val / 256, by omega⟩,
              ⟨(100 : Word16).val % 256, by omega⟩, 0x08, 0x00])
          ++ [69, 0],
        (List.replicate 20 (0 : Byte)).drop (18 + ([69, 0] : List Byte).length)⟩ ∧
    ICMPHdr.serializePktHdrV6 true ⟨[], List.replicate 20 0⟩ ⟨1, 2, 3, 4, 5, 6⟩
        ⟨7, 8, 9, 10, 11, 12⟩ 100 ⟨104, 58, 0⟩ [96, 0] 100
      = .returned ⟨[] ++
          ((⟨1, 2, 3, 4, 5, 6⟩ : MacAddress).bytes ++ (⟨7, 8, 9, 10, 11, 12⟩ : MacAddress).bytes
            ++ [0x81, 0x00, ⟨(100 : Word16).val / 256, by omega⟩,
              ⟨(100 : Word16).val % 256, by omega⟩, 0x86, 0xDD])
          ++ [96, 0],
        (List.replicate 20 (0 : Byte)).drop (18 + ([96, 0] : List Byte).length)⟩ :=
  ⟨(serializePktHdr_layout true ⟨[], List.replicate 20 0⟩ ⟨1, 2, 3, 4, 5, 6⟩
      ⟨7, 8, 9, 10, 11, 12⟩ 100).1 ⟨1, 104⟩ [69, 0] (by decide) (by decide),
   (serializePktHdr_layout true ⟨[], List.replicate 20 0⟩ ⟨1, 2, 3, 4, 5, 6⟩
      ⟨7, 8, 9, 10, 11, 12⟩ 100).2 ⟨104, 58, 0⟩ [96, 0] 100 (by decide) (by decide)
      (by decide)⟩

/-- C17, as stated, fails. In a build with `DCHECK`s the IPv4 helper returns for a header
with protocol 1 whose payload length 0 is less than the ICMP header size, so equal to
4 plus no body length; and in a build without `DCHECK`s the IPv6 helper returns for a
header whose next header is 17 and whose payload length is 0. -/
theorem serializePktHdr_completes_unchecked :
    (∃ c, ICMPHdr.serializePktHdrV4 true ⟨[], List.replicate 38 0⟩ ⟨2, 0, 0, 0, 0, 1⟩
        ⟨2, 0, 0, 0, 0, 2⟩ 1 ⟨1, 0⟩ (List.replicate 20 0) = .returned c) ∧
    (⟨1, 0⟩ : IPv4Hdr).payloadLength.val < ICMPHdr.SIZE ∧
    (∃ c, ICMPHdr.serializePktHdrV6 false ⟨[], List.replicate 58 0⟩ ⟨2, 0, 0, 0, 0, 1⟩
        ⟨2, 0, 0, 0, 0, 2⟩ 1 ⟨0, 17, 0⟩ (List.replicate 40 0) 100 = .returned c) ∧
    (⟨0, 17, 0⟩ : IPv6Hdr).nextHeader ≠ IP_PROTO_IPV6_ICMP := by
  refine ⟨⟨_, ICMPHdr.serializePktHdrV4_returned true _ _ _ _ _ _ (by decide) (by decide)⟩,
    by decide,
    ⟨_, ICMPHdr.serializePktHdrV6_returned false _ _ _ _ _ _ _ (by decide) (by decide)⟩,
    by decide⟩

/-- With room in the buffer and `DCHECK`s kept, the IPv6 helper returns exactly when the
next header is 58 and the payload length of the header is `ICMPHdr::SIZE + payloadLength`
as `uint32_t` arithmetic computes it, and aborts otherwise; the IPv4 helper returns
exactly when the protocol is 1 and aborts otherwise. With `DCHECK`s compiled out both
return. -/
theorem ICMPHdr.serializePktHdr_checks (cursor : RWPrivateCursor) (dstMac srcMac : MacAddress)
    (vlan : Word16) (ipOctets : List Byte)
    (hroom : 18 + ipOctets.length ≤ cursor.room.length) :
    (∀ (ipv6 : IPv6Hdr) (payloadLength : Word32),
      ((∃ c, ICMPHdr.serializePktHdrV6 true cursor dstMac srcMac vlan ipv6 ipOctets
          payloadLength = .returned c) ↔
        (ipv6.nextHeader = IP_PROTO_IPV6_ICMP ∧
          ipv6.payloadLength.val = (ICMPHdr.SIZE + payloadLength.val) % 2 ^ 32)) ∧
      (ICMPHdr.serializePktHdrV6 true cursor dstMac srcMac vlan ipv6 ipOctets payloadLength
          = .aborted ↔
        ¬ (ipv6.nextHeader = IP_PROTO_IPV6_ICMP ∧
          ipv6.payloadLength.val = (ICMPHdr.SIZE + payloadLength.val) % 2 ^ 32)) ∧
      (∃ c, ICMPHdr.serializePktHdrV6 false cursor dstMac srcMac vlan ipv6 ipOctets
          payloadLength = .returned c)) ∧
    (∀ ipv4 : IPv4Hdr,
      ((∃ c, ICMPHdr.serializePktHdrV4 true cursor dstMac srcMac vlan ipv4 ipOctets
          = .returned c) ↔ ipv4.protocol = IP_PROTO_ICMP) ∧
      (ICMPHdr.serializePktHdrV4 true cursor dstMac srcMac vlan ipv4 ipOctets = .aborted ↔
        ipv4.protocol ≠ IP_PROTO_ICMP) ∧
      (∃ c, ICMPHdr.serializePktHdrV4 false cursor dstMac srcMac vlan ipv4 ipOctets
          = .returned c)) := by
  constructor
  · intro ipv6 payloadLength
    by_cases hc : ipv6.nextHeader = IP_PROTO_IPV6_ICMP ∧
        ipv6.payloadLength.val = (ICMPHdr.SIZE + payloadLength.val) % 2 ^ 32
    · have hr := ICMPHdr.serializePktHdrV6_returned true cursor dstMac srcMac vlan ipv6
        ipOctets payloadLength hroom (fun _ => ⟨hc.2, hc.1⟩)
      refine ⟨⟨fun _ => hc, fun _ => ⟨_, hr⟩⟩, ⟨fun h => ?_, fun h => absurd hc h⟩,
        ⟨_, ICMPHdr.serializePktHdrV6_returned false cursor dstMac srcMac vlan ipv6 ipOctets
          payloadLength hroom (by simp)⟩⟩
      rw [hr] at h
      simp at h
    · have ha := ICMPHdr.serializePktHdrV6_aborted cursor dstMac srcMac vlan ipv6 ipOctets
        payloadLength (by omega) (fun h => hc ⟨h.2, h.1⟩)
      refine ⟨⟨fun h => ?_, fun h => absurd h hc⟩, ⟨fun _ => hc, fun _ => ha⟩,
        ⟨_, ICMPHdr.serializePktHdrV6_returned false cursor dstMac srcMac vlan ipv6 ipOctets
          payloadLength hroom (by simp)⟩⟩
      obtain ⟨c, h⟩ := h
      rw [ha] at h
      simp at h
  · intro ipv4
    by_cases hc : ipv4.protocol = IP_PROTO_ICMP
    · have hr := ICMPHdr.serializePktHdrV4_returned true cursor dstMac srcMac vlan ipv4
        ipOctets hroom (fun _ => hc)
      refine ⟨⟨fun _ => hc, fun _ => ⟨_, hr⟩⟩, ⟨fun h => ?_, fun h => absurd hc h⟩,
        ⟨_, ICMPHdr.serializePktHdrV4_returned false cursor dstMac srcMac vlan ipv4 ipOctets
          hroom (by simp)⟩⟩
      rw [hr] at h
      simp at h
    · have ha := ICMPHdr.serializePktHdrV4_aborted cursor dstMac srcMac vlan ipv4 ipOctets
        (by omega) hc
      refine ⟨⟨fun h => ?_, fun h => absurd h hc⟩, ⟨fun _ => hc, fun _ => ha⟩,
        ⟨_, ICMPHdr.serializePktHdrV4_returned false cursor dstMac srcMac vlan ipv4 ipOctets
          hroom (by simp)⟩⟩
      obtain ⟨c, h⟩ := h
      rw [ha] at h
      simp at h

/-- C17, amended: with room in the buffer for the 18 octets and the IP header, and in a
build that keeps `DCHECK`s, the IPv6 helper returns exactly when the next header is 58
and the payload length of the header equals 4 plus the body length as `uint32_t`
arithmetic computes it, that is (4 + body length) mod 2^32, and aborts otherwise; when
4 plus the body length is below 2^32 this is the plain sum. The IPv4 helper returns
exactly when the protocol is 1 and aborts otherwise, the payload length of the IPv4
header not being looked at. In a build that compiles `DCHECK`s out both helpers return
whatever the header says. -/
theorem serializePktHdr_fatal_checks (cursor : RWPrivateCursor) (dstMac srcMac : MacAddress)
    (vlan : Word16) (ipOctets : List Byte)
    (hroom : 18 + ipOctets.length ≤ cursor.room.length) :
    (∀ (ipv6 : IPv6Hdr) (payloadLength : Word32),
      ((∃ c, ICMPHdr.serializePktHdrV6 true cursor dstMac srcMac vlan ipv6 ipOctets
          payloadLength = .returned c) ↔
        (ipv6.nextHeader = IP_PROTO_IPV6_ICMP ∧
          ipv6.payloadLength.val = (ICMPHdr.SIZE + payloadLength.val) % 2 ^ 32)) ∧
      (ICMPHdr.serializePktHdrV6 true cursor dstMac srcMac vlan ipv6 ipOctets payloadLength
          = .aborted ↔
        ¬ (ipv6.nextHeader = IP_PROTO_IPV6_ICMP ∧
          ipv6.payloadLength.val = (ICMPHdr.SIZE + payloadLength.val) % 2 ^ 32)) ∧
      (4 + payloadLength.val < 2 ^ 32 →
        (((∃ c, ICMPHdr.serializePktHdrV6 true cursor dstMac srcMac vlan ipv6 ipOctets
            payloadLength = .returned c) ↔
          (ipv6.nextHeader = IP_PROTO_IPV6_ICMP ∧
            ipv6.payloadLength.val = 4 + payloadLength.val)) ∧
        (ICMPHdr.serializePktHdrV6 true cursor dstMac srcMac vlan ipv6 ipOctets payloadLength
            = .aborted ↔
          ¬ (ipv6.nextHeader = IP_PROTO_IPV6_ICMP ∧
            ipv6.payloadLength.val = 4 + payloadLength.val)))) ∧
      (∃ c, ICMPHdr.serializePktHdrV6 false cursor dstMac srcMac vlan ipv6 ipOctets
          payloadLength = .returned c)) ∧
    (∃ c, ICMPHdr.serializePktHdrV6 true cursor dstMac srcMac vlan ⟨2, 58, 0⟩ ipOctets
        4294967294 = .returned c) ∧
    (∀ ipv4 : IPv4Hdr,
      ((∃ c, ICMPHdr.serializePktHdrV4 true cursor dstMac srcMac vlan ipv4 ipOctets
          = .returned c) ↔ ipv4.protocol = IP_PROTO_ICMP) ∧
      (ICMPHdr.serializePktHdrV4 true cursor dstMac srcMac vlan ipv4 ipOctets = .aborted ↔
        ipv4.protocol ≠ IP_PROTO_ICMP) ∧
      (∃ c, ICMPHdr.serializePktHdrV4 false cursor dstMac srcMac vlan ipv4 ipOctets
          = .returned c)) := by
  have hall := ICMPHdr.serializePktHdr_checks cursor dstMac srcMac vlan ipOctets hroom
  refine ⟨?_, ?_, hall.2⟩
  · intro ipv6 payloadLength
    obtain ⟨hret, habort, hrelease⟩ := hall.1 ipv6 payloadLength
    refine ⟨hret, habort, ?_, hrelease⟩
    intro hfit
    have hmod : (ICMPHdr.SIZE + payloadLength.val) % 2 ^ 32 = 4 + payloadLength.val := by
      simp only [ICMPHdr.SIZE]
      omega
    rw [hmod] at hret habort
    exact ⟨hret, habort⟩
  · exact ((hall.1 ⟨2, 58, 0⟩ 4294967294).1).2 ⟨by decide, by decide⟩

/-- Witness of the amended C17: a fresh buffer of 58 octets and a 40-octet IPv6 header
that announces the payload length 104 and the next header 58, for the body length 100. -/
theorem serializePktHdr_fatal_checks_witness :
    18 + (List.replicate 40 (0 : Byte)).length
      ≤ (⟨[], List.replicate 58 0⟩ : RWPrivateCursor).room.length ∧
    ((∃ c, ICMPHdr.serializePktHdrV6 true ⟨[], List.replicate 58 0⟩ ⟨2, 0, 0, 0, 0, 1⟩
        ⟨2, 0, 0, 0, 0, 2⟩ 1 ⟨104, 58, 0⟩ (List.replicate 40 0) 100 = .returned c) ↔
      ((⟨104, 58, 0⟩ : IPv6Hdr).nextHeader = IP_PROTO_IPV6_ICMP ∧
        (⟨104, 58, 0⟩ : IPv6Hdr).payloadLength.val
          = (ICMPHdr.SIZE + (100 : Word32).val) % 2 ^ 32)) :=
  ⟨by decide,
    ((serializePktHdr_fatal_checks ⟨[], List.replicate 58 0⟩ ⟨2, 0, 0, 0, 0, 1⟩
      ⟨2, 0, 0, 0, 0, 2⟩ 1 (List.replicate 40 0) (by decide)).1 ⟨104, 58, 0⟩ 100).1⟩

/-- Witness of C20: on a little-endian host the MTU option 05 01 00 00 00 00 05 DC gives
the MTU 3691315200, which is traced to the eight octets at offset 0. -/
theorem getAll_sound_witness :
    NDPOptions.getAll .littleEndian [5, 1, 0, 0, 0, 0, 5, 220]
      = .ok ⟨some 3691315200, none⟩ ∧
    (∀ m, (⟨some 3691315200, none⟩ : NDPOptions).mtu = some m →
      ∃ pre l m0 m1 m2 m3 post,
        ([5, 1, 0, 0, 0, 0, 5, 220] : Cursor)
          = pre ++ 5 :: l :: 0 :: 0 :: m0 :: m1 :: m2 :: m3 :: post ∧
        NDPOptions.getMtu .littleEndian [0, 0, m0, m1, m2, m3] = .ok (m, [])) :=
  have h : NDPOptions.getAll .littleEndian [5, 1, 0, 0, 0, 0, 5, 220]
      = .ok ⟨some 3691315200, none⟩ := by
    rw [NDPOptions.getAll_eq, NDPOptions.getAllLoop_mtu, NDPOptions.getAllLoop_nil]
    rfl
  ⟨h, (getAll_sound .littleEndian [5, 1, 0, 0, 0, 0, 5, 220] ⟨some 3691315200, none⟩ h).1⟩

end fboss
